import Mathlib

/-!
Package httputil: JSON responses and request-body decoding

A shallow embedding of `httputil.go` (package `httputil`).

* Go strings and byte slices are lists of bytes; a byte is a natural number
  below 256.
* `http.ResponseWriter` is a recording sink: it keeps the calls made on it in
  order, and its `Write` either succeeds or reports a fixed error.  The sink
  records whatever status code it is given.
* `*http.Request` is its declared `ContentLength` together with a body stream
  that delivers some bytes and then ends cleanly or with an error.
* `encoding/json`, `unicode/utf8`, `unicode/utf16`, `strconv` and `io` belong to
  the Go standard library.  `DecodeData` takes the call `json.Unmarshal` as a
  parameter, so what is proved of it holds for every behaviour of the decoder.
  For `json.Marshal`, and for `json.Unmarshal` where a concrete decoder is
  needed, the library (Go 1.22 and later) is modelled on a fragment of Go
  data: nil, booleans, integers, strings, slices and string-keyed records for
  encoding; variables of type `bool`, `int64`, `string`, `[]T` and
  `map[string]T` as targets of decoding.  Floating point values, structs,
  pointers and interfaces as targets are outside the fragment.
* Calls of `log.Printf` write to the process log only and are left out.
-/

namespace Httputil

/-! ## Bytes and errors -/

/-- The bytes of an ASCII literal. -/
def bytes (s : String) : List Nat :=
  s.toList.map Char.toNat

/-- A Go `error` value.  `ErrorRequestBodyTooLarge` is the package-level
sentinel; every other error is a value made at the point of failure and is
known by its message. -/
inductive GoError where
  | ErrorRequestBodyTooLarge
  | New (msg : String)
deriving DecidableEq, Repr

/-- The method `Error()` of an error value. -/
def GoError.Error : GoError → String
  | .ErrorRequestBodyTooLarge => "Request body too large"
  | .New msg => msg

/-- The constant `maxPostSize = 1e6`. -/
def maxPostSize : Nat := 1000000

/-! ## The response sink -/

/-- One call made on a response sink. -/
inductive SinkOp where
  | setHeader (key value : String)
  | writeHeader (statusCode : Int)
  | write (p : List Nat)
deriving DecidableEq, Repr

/-- A recording `http.ResponseWriter`: the calls made so far, oldest first, and
the error its `Write` reports (`none` for a sink whose writes succeed). -/
structure ResponseWriter where
  ops : List SinkOp
  writeErr : Option GoError
deriving DecidableEq, Repr

/-- The call `w.Header().Set(key, value)`. -/
def ResponseWriter.SetHeader (w : ResponseWriter) (key value : String) : ResponseWriter :=
  { w with ops := w.ops ++ [SinkOp.setHeader key value] }

/-- The call `w.WriteHeader(statusCode)`. -/
def ResponseWriter.WriteHeader (w : ResponseWriter) (statusCode : Int) : ResponseWriter :=
  { w with ops := w.ops ++ [SinkOp.writeHeader statusCode] }

/-- The call `w.Write(p)`: the byte count, the error, and the sink afterwards.
A successful write takes all of `p`. -/
def ResponseWriter.Write (w : ResponseWriter) (p : List Nat) : Int × Option GoError × ResponseWriter :=
  let w1 : ResponseWriter := { w with ops := w.ops ++ [SinkOp.write p] }
  match w.writeErr with
  | none => ((p.length : Int), none, w1)
  | some e => (0, some e, w1)

/-- The sink before any call, for a given behaviour of `Write`. -/
def ResponseWriter.fresh (writeErr : Option GoError) : ResponseWriter :=
  { ops := [], writeErr := writeErr }

/-- The header fields in force when the status line goes out: the calls of
`Header().Set` that come before the first `WriteHeader` or `Write`. -/
def headerOps : List SinkOp → List (String × String)
  | SinkOp.setHeader k v :: rest => (k, v) :: headerOps rest
  | _ => []

/-- The value of a header field as the client receives it: the last value set
before the status line went out. -/
def ResponseWriter.header (w : ResponseWriter) (key : String) : Option String :=
  ((headerOps w.ops).reverse.find? (fun kv => kv.1 == key)).map (fun kv => kv.2)

/-- The status code the client receives: that of the first `WriteHeader`, or
200 when `Write` is called before any `WriteHeader`. -/
def statusOf : List SinkOp → Option Int
  | [] => none
  | SinkOp.setHeader _ _ :: rest => statusOf rest
  | SinkOp.writeHeader c :: _ => some c
  | SinkOp.write _ :: _ => some 200

/-- The status code of the response. -/
def ResponseWriter.status (w : ResponseWriter) : Option Int :=
  statusOf w.ops

/-- The bytes handed to `Write`, in order. -/
def bodyOf : List SinkOp → List Nat
  | [] => []
  | SinkOp.write p :: rest => p ++ bodyOf rest
  | _ :: rest => bodyOf rest

/-- The body of the response. -/
def ResponseWriter.body (w : ResponseWriter) : List Nat :=
  bodyOf w.ops

/-! ## Go data and its JSON encoding (`encoding/json`) -/

mutual
/-- The fragment of Go data that is modelled: `nil` (also the nil slice and
the nil map), `bool`, `int64`, `string` (a byte sequence, not necessarily
UTF-8), non-nil slices, records with string keys listed in encoding order (a
struct in field order, a non-nil map in key order), and a channel, which
stands for the types the encoder rejects. -/
inductive Value where
  | null
  | bool (b : Bool)
  | int (n : Int)
  | str (s : List Nat)
  | arr (xs : Elems)
  | obj (fs : Fields)
  | chan
/-- The elements of a slice. -/
inductive Elems where
  | nil
  | cons (v : Value) (rest : Elems)
/-- The fields of a record. -/
inductive Fields where
  | nil
  | cons (k : List Nat) (v : Value) (rest : Fields)
end

/-- The rune `utf8.RuneError`, U+FFFD. -/
def RuneError : Nat := 0xFFFD

/-- The table `first` of `unicode/utf8` with its accept ranges: for a leading
byte of a multi-byte sequence, the length of the sequence and the bounds on
the second byte; `none` for a byte that cannot lead. -/
def first (b : Nat) : Option (Nat × Nat × Nat) :=
  if b < 0xC2 then none
  else if b < 0xE0 then some (2, 0x80, 0xBF)
  else if b = 0xE0 then some (3, 0xA0, 0xBF)
  else if b < 0xED then some (3, 0x80, 0xBF)
  else if b = 0xED then some (3, 0x80, 0x9F)
  else if b < 0xF0 then some (3, 0x80, 0xBF)
  else if b = 0xF0 then some (4, 0x90, 0xBF)
  else if b < 0xF4 then some (4, 0x80, 0xBF)
  else if b = 0xF4 then some (4, 0x80, 0x8F)
  else none

/-- The function `utf8.DecodeRune`: the first rune of `s` and its width in
bytes; `(RuneError, 1)` for an invalid encoding and `(RuneError, 0)` for the
empty input.  The masks and shifts of the library are written with `%` and
`*`; the bit fields they combine do not overlap. -/
def DecodeRune (s : List Nat) : Nat × Nat :=
  match s with
  | [] => (RuneError, 0)
  | s0 :: t =>
    if s0 < 0x80 then (s0, 1) else
    match first s0 with
    | none => (RuneError, 1)
    | some (sz, lo, hi) =>
      if s.length < sz then (RuneError, 1) else
      let s1 := t.getD 0 0
      if s1 < lo ∨ hi < s1 then (RuneError, 1) else
      if sz ≤ 2 then (s0 % 32 * 64 + s1 % 64, 2) else
      let s2 := t.getD 1 0
      if s2 < 0x80 ∨ 0xBF < s2 then (RuneError, 1) else
      if sz ≤ 3 then (s0 % 16 * 4096 + s1 % 64 * 64 + s2 % 64, 3) else
      let s3 := t.getD 2 0
      if s3 < 0x80 ∨ 0xBF < s3 then (RuneError, 1) else
      (s0 % 8 * 262144 + s1 % 64 * 4096 + s2 % 64 * 64 + s3 % 64, 4)

/-- The table `hex` of `encoding/json`: the digit for a value below 16. -/
def hex (d : Nat) : Nat :=
  if d < 10 then 48 + d else 87 + d

/-- The table `htmlSafeSet`: the ASCII bytes that are written unescaped. -/
def htmlSafeSet (b : Nat) : Bool :=
  decide (0x20 ≤ b ∧ b < 0x80 ∧ b ≠ 34 ∧ b ≠ 38 ∧ b ≠ 60 ∧ b ≠ 62 ∧ b ≠ 92)

/-- The escape written for an ASCII byte outside `htmlSafeSet`. -/
def escapeByte (b : Nat) : List Nat :=
  if b = 92 ∨ b = 34 then [92, b]
  else if b = 8 then [92, 98]
  else if b = 12 then [92, 102]
  else if b = 10 then [92, 110]
  else if b = 13 then [92, 114]
  else if b = 9 then [92, 116]
  else [92, 117, 48, 48, hex (b / 16), hex (b % 16)]

/-- The loop of `appendString` with HTML escaping on: the text written between
the quotes for the bytes `src`, one rune per step.  `fuel` bounds the number
of steps; every step consumes at least one byte. -/
def appendStringLoop : Nat → List Nat → List Nat
  | 0, _ => []
  | _ + 1, [] => []
  | fuel + 1, b :: rest =>
    if b < 0x80 then
      if htmlSafeSet b then b :: appendStringLoop fuel rest
      else escapeByte b ++ appendStringLoop fuel rest
    else
      let cs := DecodeRune (b :: rest)
      if cs.1 = RuneError ∧ cs.2 = 1 then
        bytes "\\ufffd" ++ appendStringLoop fuel rest
      else if cs.1 = 0x2028 ∨ cs.1 = 0x2029 then
        bytes "\\u202" ++ hex (cs.1 % 16) :: appendStringLoop fuel ((b :: rest).drop cs.2)
      else
        (b :: rest).take cs.2 ++ appendStringLoop fuel ((b :: rest).drop cs.2)

/-- The function `appendString` of `encoding/json` with HTML escaping on: the
JSON string literal for the Go string `src`. -/
def appendString (src : List Nat) : List Nat :=
  34 :: appendStringLoop src.length src ++ [34]

/-- The loop of `strconv.FormatUint` in base 10: the digits of `n` put in
front of `acc`. -/
def formatBits : Nat → Nat → List Nat → List Nat
  | 0, _, acc => acc
  | fuel + 1, n, acc =>
    if n < 10 then (48 + n) :: acc
    else formatBits fuel (n / 10) ((48 + n % 10) :: acc)

/-- The function `strconv.AppendInt` in base 10. -/
def appendInt (n : Int) : List Nat :=
  if n < 0 then 45 :: formatBits (n.natAbs + 1) n.natAbs []
  else formatBits (n.natAbs + 1) n.natAbs []

mutual
/-- The encoder of `encoding/json` on a value: its JSON text, or `none` when
the value holds a type the encoder rejects. -/
def encodeValue : Value → Option (List Nat)
  | .null => some (bytes "null")
  | .bool true => some (bytes "true")
  | .bool false => some (bytes "false")
  | .int n => some (appendInt n)
  | .str s => some (appendString s)
  | .arr xs =>
    match encodeElems xs with
    | some b => some (91 :: b ++ [93])
    | none => none
  | .obj fs =>
    match encodeFields fs with
    | some b => some (123 :: b ++ [125])
    | none => none
  | .chan => none
/-- The elements of a slice, separated by commas. -/
def encodeElems : Elems → Option (List Nat)
  | .nil => some []
  | .cons v .nil => encodeValue v
  | .cons v rest =>
    match encodeValue v, encodeElems rest with
    | some a, some b => some (a ++ 44 :: b)
    | _, _ => none
/-- The fields of a record, each as key, colon, value, separated by commas. -/
def encodeFields : Fields → Option (List Nat)
  | .nil => some []
  | .cons k v .nil =>
    match encodeValue v with
    | some a => some (appendString k ++ 58 :: a)
    | none => none
  | .cons k v rest =>
    match encodeValue v, encodeFields rest with
    | some a, some b => some (appendString k ++ 58 :: a ++ 44 :: b)
    | _, _ => none
end

/-- The function `json.Marshal`: the JSON text of a value, or the error of the
encoder. -/
def Marshal (v : Value) : Except GoError (List Nat) :=
  match encodeValue v with
  | some b => .ok b
  | none => .error (GoError.New "json: unsupported type: chan int")

/-- The anonymous struct of `SendError` and `SendSuccess`, with the single
field `Message` tagged `json:"message"`. -/
def messageEnvelope (message : List Nat) : Value :=
  .obj (.cons (bytes "message") (.str message) .nil)

/-! ## The response senders -/

/-- The function `SendError`: the returned byte count and error, and the sink
afterwards. -/
def SendError (w : ResponseWriter) (message : List Nat) (statusCode : Int) :
    Int × Option GoError × ResponseWriter :=
  if message = [] then
    (0, some (GoError.New "message must not be an empty string"), w)
  else
    match Marshal (messageEnvelope message) with
    | .error err =>
      (0, some (GoError.New ("Could not marshal message into payload, " ++ err.Error)), w)
    | .ok payload =>
      let w1 := w.SetHeader "Content-Type" "application/json"
      let w2 := w1.WriteHeader statusCode
      match w2.Write payload with
      | (_, some err, w3) =>
        (0, some (GoError.New ("There was an error sending the response, " ++ err.Error)), w3)
      | (bytesWritten, none, w3) => (bytesWritten, none, w3)

/-- The function `SendSuccess`. -/
def SendSuccess (w : ResponseWriter) (message : List Nat) : Int × Option GoError × ResponseWriter :=
  match Marshal (messageEnvelope message) with
  | .error err =>
    (0, some (GoError.New ("Could not marshal data into payload, " ++ err.Error)), w)
  | .ok payload =>
    let w1 := w.SetHeader "Content-Type" "application/json"
    let w2 := w1.WriteHeader 200
    match w2.Write payload with
    | (_, some err, w3) =>
      (0, some (GoError.New ("There was an error sending the response, " ++ err.Error)), w3)
    | (bytesWritten, none, w3) => (bytesWritten, none, w3)

/-- The function `SendData`. -/
def SendData (w : ResponseWriter) (data : Value) (statusCode : Int) :
    Int × Option GoError × ResponseWriter :=
  match Marshal data with
  | .error err =>
    (0, some (GoError.New ("Could not marshal data into payload, " ++ err.Error)), w)
  | .ok payload =>
    let w1 := w.SetHeader "Content-Type" "application/json"
    let w2 := w1.WriteHeader statusCode
    match w2.Write payload with
    | (_, some err, w3) =>
      (0, some (GoError.New ("There was an error sending the response, " ++ err.Error)), w3)
    | (bytesWritten, none, w3) => (bytesWritten, none, w3)

/-! ## Reading JSON text (`encoding/json`) -/

mutual
/-- A JSON document as the scanner of `encoding/json` reads it: the literals,
a number, a string with its escapes resolved, an array, or an object with its
members in the order of the text.  A number without fraction and exponent is
kept with its value; of a number with a fraction or an exponent only its
presence is kept. -/
inductive Doc where
  | null
  | bool (b : Bool)
  | int (n : Int)
  | float
  | str (s : List Nat)
  | arr (xs : Docs)
  | obj (ms : Members)
/-- The elements of a JSON array. -/
inductive Docs where
  | nil
  | cons (d : Doc) (rest : Docs)
/-- The members of a JSON object. -/
inductive Members where
  | nil
  | cons (k : List Nat) (d : Doc) (rest : Members)
end

/-- The constant `maxNestingDepth` of the JSON scanner. -/
def maxNestingDepth : Nat := 10000

/-- The function `isSpace` of the JSON scanner. -/
def isSpace (c : Nat) : Bool :=
  decide (c = 32 ∨ c = 9 ∨ c = 13 ∨ c = 10)

/-- Skipping of JSON white space. -/
def skipWS : List Nat → List Nat
  | [] => []
  | c :: rest => if isSpace c then skipWS rest else c :: rest

/-- The function `utf8.EncodeRune`: the UTF-8 encoding of a rune, that of
U+FFFD for a surrogate or a value above U+10FFFF. -/
def EncodeRune (r : Nat) : List Nat :=
  if r < 0x80 then [r]
  else if r < 0x800 then [0xC0 + r / 64, 0x80 + r % 64]
  else if (0xD800 ≤ r ∧ r < 0xE000) ∨ 0x10FFFF < r then [0xEF, 0xBF, 0xBD]
  else if r < 0x10000 then [0xE0 + r / 4096, 0x80 + r / 64 % 64, 0x80 + r % 64]
  else [0xF0 + r / 262144, 0x80 + r / 4096 % 64, 0x80 + r / 64 % 64, 0x80 + r % 64]

/-- The value of a hexadecimal digit, as in `getu4`. -/
def hexValue (c : Nat) : Option Nat :=
  if 48 ≤ c ∧ c ≤ 57 then some (c - 48)
  else if 97 ≤ c ∧ c ≤ 102 then some (c - 97 + 10)
  else if 65 ≤ c ∧ c ≤ 70 then some (c - 65 + 10)
  else none

/-- The function `getu4`: the rune of a `\uXXXX` escape at the head of `s`, or
`none` (the library's -1) when `s` does not start with one. -/
def getu4 (s : List Nat) : Option Nat :=
  match s with
  | 92 :: 117 :: a :: b :: c :: d :: _ =>
    match hexValue a, hexValue b, hexValue c, hexValue d with
    | some x, some y, some z, some w => some (x * 4096 + y * 256 + z * 16 + w)
    | _, _, _, _ => none
  | _ => none

/-- The function `utf16.DecodeRune` on an optional second half: the code
point of a surrogate pair, U+FFFD when the two halves do not pair up. -/
def utf16DecodeRune (r1 : Nat) (r2 : Option Nat) : Nat :=
  match r2 with
  | some r2 =>
    if 0xD800 ≤ r1 ∧ r1 < 0xDC00 ∧ 0xDC00 ≤ r2 ∧ r2 < 0xE000 then
      (r1 - 0xD800) * 1024 + (r2 - 0xDC00) + 0x10000
    else RuneError
  | none => RuneError

/-- Puts `out` in front of the text decoded by the rest of the loop. -/
def emit (out : List Nat) (r : Option (List Nat × List Nat)) : Option (List Nat × List Nat) :=
  match r with
  | some (s, rest) => some (out ++ s, rest)
  | none => none

/-- The string scanner together with `unquote`, started after the opening
quote: the Go string that the literal denotes and the input after the closing
quote.  Control characters and unknown escapes are errors; invalid UTF-8 and
unpaired surrogates become U+FFFD.  `fuel` bounds the number of steps; every
step consumes at least one byte. -/
def parseStringLoop : Nat → List Nat → Option (List Nat × List Nat)
  | 0, _ => none
  | _ + 1, [] => none
  | fuel + 1, c :: rest =>
    if c = 34 then some ([], rest)
    else if c = 92 then
      match rest with
      | [] => none
      | e :: rest1 =>
        if e = 34 ∨ e = 92 ∨ e = 47 then emit [e] (parseStringLoop fuel rest1)
        else if e = 98 then emit [8] (parseStringLoop fuel rest1)
        else if e = 102 then emit [12] (parseStringLoop fuel rest1)
        else if e = 110 then emit [10] (parseStringLoop fuel rest1)
        else if e = 114 then emit [13] (parseStringLoop fuel rest1)
        else if e = 116 then emit [9] (parseStringLoop fuel rest1)
        else if e = 117 then
          match getu4 (c :: rest) with
          | none => none
          | some rr =>
            let rest2 := rest1.drop 4
            if 0xD800 ≤ rr ∧ rr < 0xE000 then
              let dec := utf16DecodeRune rr (getu4 rest2)
              if dec ≠ RuneError then
                emit (EncodeRune dec) (parseStringLoop fuel (rest2.drop 6))
              else emit (EncodeRune RuneError) (parseStringLoop fuel rest2)
            else emit (EncodeRune rr) (parseStringLoop fuel rest2)
        else none
    else if c < 0x20 then none
    else if c < 0x80 then emit [c] (parseStringLoop fuel rest)
    else
      let cs := DecodeRune (c :: rest)
      emit (EncodeRune cs.1) (parseStringLoop fuel ((c :: rest).drop cs.2))

/-- A string literal whose opening quote has been read. -/
def parseString (input : List Nat) : Option (List Nat × List Nat) :=
  parseStringLoop input.length input

/-- The digits at the head of the input, added to `acc` in base 10. -/
def parseDigits : List Nat → Nat → Nat × List Nat
  | [], acc => (acc, [])
  | c :: rest, acc =>
    if 48 ≤ c ∧ c ≤ 57 then parseDigits rest (acc * 10 + (c - 48)) else (acc, c :: rest)

/-- The input without the digits at its head. -/
def skipDigits : List Nat → List Nat
  | [] => []
  | c :: rest => if 48 ≤ c ∧ c ≤ 57 then skipDigits rest else c :: rest

/-- The exponent of a number literal after its `e` or `E`: an optional sign
and at least one digit.  The result is the input after the exponent. -/
def scanExponent (input : List Nat) : Option (List Nat) :=
  match input with
  | [] => none
  | c :: rest =>
    if c = 43 ∨ c = 45 then
      match rest with
      | [] => none
      | d :: rest1 => if 48 ≤ d ∧ d ≤ 57 then some (skipDigits rest1) else none
    else if 48 ≤ c ∧ c ≤ 57 then some (skipDigits rest)
    else none

/-- The fraction of a number literal after its point: at least one digit, and
then possibly an exponent.  The result is the input after the literal. -/
def scanFraction (input : List Nat) : Option (List Nat) :=
  match input with
  | [] => none
  | d :: rest =>
    if 48 ≤ d ∧ d ≤ 57 then
      match skipDigits rest with
      | [] => some []
      | c :: rest1 => if c = 101 ∨ c = 69 then scanExponent rest1 else some (c :: rest1)
    else none

/-- The integer that a sign and a magnitude denote. -/
def signed (neg : Bool) (n : Nat) : Int :=
  if neg then -(n : Int) else (n : Int)

/-- The end of a number literal after its integer part: a fraction or an
exponent makes it a `Doc.float`, otherwise the literal is the integer read so
far. -/
def finishNumber (neg : Bool) (n : Nat) (rest : List Nat) : Option (Doc × List Nat) :=
  match rest with
  | [] => some (.int (signed neg n), [])
  | c :: rest1 =>
    if c = 46 then
      match scanFraction rest1 with
      | some rest2 => some (.float, rest2)
      | none => none
    else if c = 101 ∨ c = 69 then
      match scanExponent rest1 with
      | some rest2 => some (.float, rest2)
      | none => none
    else some (.int (signed neg n), c :: rest1)

/-- The digits of a number literal after its sign: a single `0`, or a digit
from 1 to 9 followed by digits. -/
def parseUnsigned (neg : Bool) (input : List Nat) : Option (Doc × List Nat) :=
  match input with
  | [] => none
  | c :: rest =>
    if c = 48 then finishNumber neg 0 rest
    else if 49 ≤ c ∧ c ≤ 57 then
      finishNumber neg (parseDigits (c :: rest) 0).1 (parseDigits (c :: rest) 0).2
    else none

/-- A number literal: an optional minus sign and the digits. -/
def parseNumber (input : List Nat) : Option (Doc × List Nat) :=
  match input with
  | [] => none
  | c :: rest => if c = 45 then parseUnsigned true rest else parseUnsigned false (c :: rest)

/-- The values that open no array and no object: the three literals, strings
and numbers.  The input starts at the first byte of the value. -/
def parseScalar (input : List Nat) : Option (Doc × List Nat) :=
  match input with
  | [] => none
  | c :: rest =>
    if c = 110 then
      match rest with
      | 117 :: 108 :: 108 :: rest1 => some (.null, rest1)
      | _ => none
    else if c = 116 then
      match rest with
      | 114 :: 117 :: 101 :: rest1 => some (.bool true, rest1)
      | _ => none
    else if c = 102 then
      match rest with
      | 97 :: 108 :: 115 :: 101 :: rest1 => some (.bool false, rest1)
      | _ => none
    else if c = 34 then
      match parseString rest with
      | some (s, rest1) => some (.str s, rest1)
      | none => none
    else parseNumber (c :: rest)

/-- The elements of an array: values separated by commas up to the closing
bracket.  `pv` reads one value after optional white space; `n` bounds the
number of elements. -/
def parseElemsLoop (pv : List Nat → Option (Doc × List Nat)) :
    Nat → List Nat → Option (Docs × List Nat)
  | 0, _ => none
  | n + 1, input =>
    match pv input with
    | none => none
    | some (v, rest) =>
      match skipWS rest with
      | 44 :: rest1 =>
        match parseElemsLoop pv n rest1 with
        | some (vs, rest2) => some (.cons v vs, rest2)
        | none => none
      | 93 :: rest1 => some (.cons v .nil, rest1)
      | _ => none

/-- The members of an object: `"key": value` pairs separated by commas up to
the closing brace.  `pv` reads one value after optional white space; `n`
bounds the number of members. -/
def parseFieldsLoop (pv : List Nat → Option (Doc × List Nat)) :
    Nat → List Nat → Option (Members × List Nat)
  | 0, _ => none
  | n + 1, input =>
    match skipWS input with
    | 34 :: rest =>
      match parseString rest with
      | none => none
      | some (k, rest1) =>
        match skipWS rest1 with
        | 58 :: rest2 =>
          match pv rest2 with
          | none => none
          | some (v, rest3) =>
            match skipWS rest3 with
            | 44 :: rest4 =>
              match parseFieldsLoop pv n rest4 with
              | some (fs, rest5) => some (.cons k v fs, rest5)
              | none => none
            | 125 :: rest4 => some (.cons k v .nil, rest4)
            | _ => none
        | _ => none
    | _ => none

/-- One JSON value after optional white space, and the input that follows it.
`depth` is the number of arrays and objects that may still be opened; the
scanner reports "exceeded max depth" beyond it. -/
def parseValue : Nat → List Nat → Option (Doc × List Nat)
  | 0, input =>
    match skipWS input with
    | [] => none
    | c :: rest => if c = 91 ∨ c = 123 then none else parseScalar (c :: rest)
  | depth + 1, input =>
    match skipWS input with
    | [] => none
    | c :: rest =>
      if c = 91 then
        match skipWS rest with
        | [] => none
        | c1 :: rest1 =>
          if c1 = 93 then some (.arr .nil, rest1)
          else
            match parseElemsLoop (fun i => parseValue depth i) rest.length rest with
            | some (vs, rest2) => some (.arr vs, rest2)
            | none => none
      else if c = 123 then
        match skipWS rest with
        | [] => none
        | c1 :: rest1 =>
          if c1 = 125 then some (.obj .nil, rest1)
          else
            match parseFieldsLoop (fun i => parseValue depth i) rest.length rest with
            | some (fs, rest2) => some (.obj fs, rest2)
            | none => none
      else parseScalar (c :: rest)

/-- The syntax check of `json.Unmarshal` (`checkValid`) together with the
reading of the text: the input must be one JSON value with white space around
it at most.  `none` is a syntax error. -/
def parseDocument (data : List Nat) : Option Doc :=
  match parseValue maxNestingDepth data with
  | some (d, rest) => if skipWS rest = [] then some d else none
  | none => none

/-! ## Storing a document into a typed target (`encoding/json`) -/

/-- The Go types of the targets that are modelled: `bool`, `int64`, `string`,
slices `[]T` and maps `map[string]T` over these.  Targets of other types
(floats, structs, pointers, interfaces) are outside the model. -/
inductive GoType where
  | bool
  | int64
  | string
  | slice (elem : GoType)
  | map (elem : GoType)
deriving DecidableEq, Repr

/-- The zero value of a type: `false`, `0`, the empty string, the nil slice
and the nil map. -/
def zero : GoType → Value
  | .bool => .bool false
  | .int64 => .int 0
  | .string => .str []
  | .slice _ => .null
  | .map _ => .null

/-- The order of Go strings, byte by byte, as `strings.Compare` less than. -/
def keyLt : List Nat → List Nat → Bool
  | [], [] => false
  | [], _ :: _ => true
  | _ :: _, [] => false
  | a :: s, b :: t => decide (a < b) || (decide (a = b) && keyLt s t)

/-- The call `SetMapIndex` on a map kept in key order: the entry for `k` is
replaced when the key is present and added otherwise. -/
def insertField (k : List Nat) (v : Value) : Fields → Fields
  | .nil => .cons k v .nil
  | .cons k2 v2 rest =>
    if k = k2 then .cons k v rest
    else if keyLt k k2 then .cons k v (.cons k2 v2 rest)
    else .cons k2 v2 (insertField k v rest)

/-- The elements of a slice value; none for the nil slice. -/
def elemsOf : Value → Elems
  | .arr xs => xs
  | _ => .nil

/-- The entries of a map value; none for the nil map. -/
def fieldsOf : Value → Fields
  | .obj fs => fs
  | _ => .nil

mutual
/-- The decoder of `encoding/json` on a valid document: the value of the
target after storing the document into a variable of type `t` that holds
`cur`, and whether a type error was met.  `null` leaves a `bool`, `int64` or
`string` as it is and makes a slice or map nil.  A document of the wrong kind
for the type, a number with a fraction or exponent and an integer outside
`int64` are type errors: they leave the variable as it is and decoding goes
on. -/
def store : GoType → Doc → Value → Value × Bool
  | t, .null, cur =>
    match t with
    | .slice _ => (.null, false)
    | .map _ => (.null, false)
    | _ => (cur, false)
  | t, .bool b, cur =>
    match t with
    | .bool => (.bool b, false)
    | _ => (cur, true)
  | t, .int n, cur =>
    match t with
    | .int64 =>
      if -(2 : Int) ^ 63 ≤ n ∧ n < (2 : Int) ^ 63 then (.int n, false) else (cur, true)
    | _ => (cur, true)
  | _, .float, cur => (cur, true)
  | t, .str s, cur =>
    match t with
    | .string => (.str s, false)
    | _ => (cur, true)
  | t, .arr ds, cur =>
    match t with
    | .slice e => (.arr (storeElems e ds (elemsOf cur)).1, (storeElems e ds (elemsOf cur)).2)
    | _ => (cur, true)
  | t, .obj ms, cur =>
    match t with
    | .map e => (.obj (storeMembers e ms (fieldsOf cur)).1, (storeMembers e ms (fieldsOf cur)).2)
    | _ => (cur, true)
/-- The elements of a JSON array stored into a slice whose elements so far
are `cur`: element `i` is stored into the element that is there, or into a
zero value when the slice is shorter; the slice ends up as long as the array.
The capacity of the slice is taken to be its length. -/
def storeElems : GoType → Docs → Elems → Elems × Bool
  | _, .nil, _ => (.nil, false)
  | t, .cons d ds, cur =>
    match cur with
    | .cons c rest =>
      (.cons (store t d c).1 (storeElems t ds rest).1,
        (store t d c).2 || (storeElems t ds rest).2)
    | .nil =>
      (.cons (store t d (zero t)).1 (storeElems t ds .nil).1,
        (store t d (zero t)).2 || (storeElems t ds .nil).2)
/-- The members of a JSON object stored into a map whose entries so far are
`acc`: each value is stored into a fresh zero value, which is then put into
the map under its key. -/
def storeMembers : GoType → Members → Fields → Fields × Bool
  | _, .nil, acc => (acc, false)
  | t, .cons k d ms, acc =>
    ((storeMembers t ms (insertField k (store t d (zero t)).1 acc)).1,
      (store t d (zero t)).2 || (storeMembers t ms (insertField k (store t d (zero t)).1 acc)).2)
end

/-- The error of `json.Unmarshal`.  The text of the library's message is not
modelled. -/
def jsonError : GoError :=
  GoError.New "json: cannot unmarshal input"

/-- The function `json.Unmarshal` into a non-nil pointer to a variable of type
`t` that holds `target`: the error and the variable afterwards.  A syntax
error leaves the variable untouched; otherwise the document is stored and the
first type error, if any, is reported. -/
def Unmarshal (t : GoType) (data : List Nat) (target : Value) : Option GoError × Value :=
  match parseDocument data with
  | none => (some jsonError, target)
  | some d => (if (store t d target).2 then some jsonError else none, (store t d target).1)

/-! ## The request decoder -/

/-- The body stream of a request: the bytes it delivers, and the error that
ends it (`none` for a clean end of stream).  The error is reported by the read
that follows the last byte. -/
structure Body where
  data : List Nat
  err : Option GoError
deriving DecidableEq, Repr

/-- The part of `*http.Request` that the decoder uses.  `ContentLength` is -1
when the length is not declared. -/
structure Request where
  ContentLength : Int
  Body : Body
deriving DecidableEq, Repr

/-- What a decode call does besides returning: reading from the body stream
(with the number of bytes taken) and handing bytes to the JSON decoder. -/
inductive DecodeEvent where
  | read (n : Nat)
  | unmarshal (input : List Nat)
deriving DecidableEq, Repr

/-- The outcome of `DecodeData` for a target of kind `τ`: the two results,
the target of the caller after the call, and the events of the call in
order. -/
structure Decoded (τ : Type) where
  value : Option τ
  err : Option GoError
  target : τ
  events : List DecodeEvent

/-- The call `io.Copy(fullPost, io.LimitReader(body, n))`: the bytes that
reach the buffer and the error of the copy.  The limited reader stops after
`n` bytes without asking the stream for more. -/
def copyLimited (body : Body) (n : Nat) : List Nat × Option GoError :=
  if body.data.length < n then (body.data, body.err) else (body.data.take n, none)

/-- The function `DecodeData`.  The library call `json.Unmarshal(bytes, data)`
is the parameter `jsonUnmarshal`: from the bytes and the target it gives the
error and the target afterwards.  `Unmarshal t` is such a decoder. -/
def DecodeData {τ : Type} (jsonUnmarshal : List Nat → τ → Option GoError × τ) (data : τ)
    (r : Request) : Decoded τ :=
  if r.ContentLength > (maxPostSize : Int) then
    { value := none, err := some GoError.ErrorRequestBodyTooLarge, target := data, events := [] }
  else
    match copyLimited r.Body maxPostSize with
    | (fullPost, some err) =>
      { value := none, err := some (GoError.New ("Could not read body " ++ err.Error)),
        target := data, events := [DecodeEvent.read fullPost.length] }
    | (fullPost, none) =>
      match jsonUnmarshal fullPost data with
      | (some err, target) =>
        { value := none, err := some (GoError.New ("Bad request " ++ err.Error)),
          target := target,
          events := [DecodeEvent.read fullPost.length, DecodeEvent.unmarshal fullPost] }
      | (none, target) =>
        { value := some target, err := none, target := target,
          events := [DecodeEvent.read fullPost.length, DecodeEvent.unmarshal fullPost] }

def performed (before after : ResponseWriter) : List SinkOp :=
  after.ops.drop before.ops.length

/-- The three calls of a send, in order, for a status code and a payload. -/
def sendOps (statusCode : Int) (payload : List Nat) : List SinkOp :=
  [SinkOp.setHeader "Content-Type" "application/json", SinkOp.writeHeader statusCode,
    SinkOp.write payload]

/-- The loop of `utf8.Valid`: no step of the decoding meets an invalid
byte.  `fuel` bounds the number of steps. -/
def validLoop : Nat → List Nat → Bool
  | _, [] => true
  | 0, _ :: _ => false
  | fuel + 1, b :: rest =>
    if b < 0x80 then validLoop fuel rest
    else if (DecodeRune (b :: rest)).2 = 1 then false
    else validLoop fuel ((b :: rest).drop (DecodeRune (b :: rest)).2)

/-- The function `utf8.Valid`. -/
def Valid (s : List Nat) : Bool :=
  validLoop s.length s

/-- The input after a value is at its end or goes on with a comma, a closing
bracket or a closing brace. -/
def Terminated (rest : List Nat) : Prop :=
  rest = [] ∨ ∃ c t, rest = c :: t ∧ (c = 44 ∨ c = 93 ∨ c = 125)

mutual
/-- The number of arrays and objects that are open at the deepest point of a
value. -/
def Value.depth : Value → Nat
  | .arr xs => xs.depth + 1
  | .obj fs => fs.depth + 1
  | _ => 0
/-- The depth of the deepest element. -/
def Elems.depth : Elems → Nat
  | .nil => 0
  | .cons v rest => max v.depth rest.depth
/-- The depth of the deepest field. -/
def Fields.depth : Fields → Nat
  | .nil => 0
  | .cons _ v rest => max v.depth rest.depth
end

mutual
/-- Every integer of the value lies in the range of `int64`, and every string
and every key is valid UTF-8 (`utf8.Valid`). -/
def Value.valid : Value → Bool
  | .int n => decide (-(2 : Int) ^ 63 ≤ n ∧ n < (2 : Int) ^ 63)
  | .str s => Valid s
  | .arr xs => xs.valid
  | .obj fs => fs.valid
  | _ => true
/-- Every element is valid. -/
def Elems.valid : Elems → Bool
  | .nil => true
  | .cons v rest => v.valid && rest.valid
/-- Every key and every field is valid. -/
def Fields.valid : Fields → Bool
  | .nil => true
  | .cons k v rest => Valid k && v.valid && rest.valid
end

/-- The bytes that can start the JSON text of a value. -/
def StartByte (c : Nat) : Prop :=
  c = 110 ∨ c = 116 ∨ c = 102 ∨ c = 34 ∨ c = 91 ∨ c = 123 ∨ c = 45 ∨ (48 ≤ c ∧ c ≤ 57)

/-- The slice nested `n` levels inside slices: `[]`, `[[]]`, `[[[]]]`, ... -/
def nest : Nat → Value
  | 0 => .arr .nil
  | n + 1 => .arr (.cons (nest n) .nil)

/-- The loop of `appendString` writes no escape for the string: every ASCII
byte is in `htmlSafeSet`, and every other byte starts a well-formed multi-byte
sequence that is neither U+2028 nor U+2029. -/
def unescapedLoop : Nat → List Nat → Bool
  | _, [] => true
  | 0, _ :: _ => false
  | fuel + 1, b :: rest =>
    if b < 0x80 then htmlSafeSet b && unescapedLoop fuel rest
    else
      let cs := DecodeRune (b :: rest)
      if cs.1 = RuneError ∧ cs.2 = 1 then false
      else if cs.1 = 0x2028 ∨ cs.1 = 0x2029 then false
      else unescapedLoop fuel ((b :: rest).drop cs.2)

/-- The string is valid UTF-8 and holds no character that `appendString`
escapes: no double quote, backslash, `<`, `>`, `&`, no control character below
U+0020, and neither U+2028 nor U+2029. -/
def unescaped (s : List Nat) : Bool :=
  unescapedLoop s.length s

mutual
/-- The JSON document that the encoding of a value denotes. -/
def docOf : Value → Doc
  | .null => .null
  | .bool b => .bool b
  | .int n => .int n
  | .str s => .str s
  | .arr xs => .arr (docsOf xs)
  | .obj fs => .obj (membersOf fs)
  | .chan => .null
/-- The documents of the elements. -/
def docsOf : Elems → Docs
  | .nil => .nil
  | .cons v rest => .cons (docOf v) (docsOf rest)
/-- The members of the fields. -/
def membersOf : Fields → Members
  | .nil => .nil
  | .cons k v rest => .cons k (docOf v) (membersOf rest)
end

/-- Every key of the fields is above `k`. -/
def allAbove (k : List Nat) : Fields → Bool
  | .nil => true
  | .cons k2 _ rest => keyLt k k2 && allAbove k rest

/-- Every key of the fields is below `k`. -/
def allBelow (k : List Nat) : Fields → Bool
  | .nil => true
  | .cons k2 _ rest => keyLt k2 k && allBelow k rest

/-- The keys are listed in strictly ascending order, the order in which
`json.Marshal` writes the entries of a map. -/
def sortedKeys : Fields → Bool
  | .nil => true
  | .cons k _ rest => allAbove k rest && sortedKeys rest

/-- Every key of `fs` is above every key of `acc`. -/
def keysAbove (acc : Fields) : Fields → Bool
  | .nil => true
  | .cons k _ rest => allBelow k acc && keysAbove acc rest

/-- The fields of `acc` followed by those of `fs`. -/
def Fields.append : Fields → Fields → Fields
  | .nil, fs => fs
  | .cons k v rest, fs => .cons k v (Fields.append rest fs)

mutual
/-- The value is a Go value of the type: `nil` for a slice or map type, a
boolean, an integer, a string, a slice whose elements have the element type,
or a map with its entries in key order whose values have the element type. -/
def hasType : Value → GoType → Bool
  | .null, t =>
    match t with
    | .slice _ => true
    | .map _ => true
    | _ => false
  | .bool _, t =>
    match t with
    | .bool => true
    | _ => false
  | .int _, t =>
    match t with
    | .int64 => true
    | _ => false
  | .str _, t =>
    match t with
    | .string => true
    | _ => false
  | .arr xs, t =>
    match t with
    | .slice e => elemsHaveType xs e
    | _ => false
  | .obj fs, t =>
    match t with
    | .map e => fieldsHaveType fs e && sortedKeys fs
    | _ => false
  | .chan, _ => false
/-- Every element has the type. -/
def elemsHaveType : Elems → GoType → Bool
  | .nil, _ => true
  | .cons v rest, t => hasType v t && elemsHaveType rest t
/-- Every field has the type. -/
def fieldsHaveType : Fields → GoType → Bool
  | .nil, _ => true
  | .cons _ v rest, t => hasType v t && fieldsHaveType rest t
end

/-- The type of `nest n`: a slice type nested `n` levels inside slice types,
over `int64`. -/
def nestType : Nat → GoType
  | 0 => .slice .int64
  | n + 1 => .slice (nestType n)


/-! ## Facts about the encoder and the senders -/

theorem Marshal_messageEnvelope (message : List Nat) :
    Marshal (messageEnvelope message)
      = .ok (bytes "\x7b\"message\":" ++ appendString message ++ bytes "\x7d") := by
  have h : appendString (bytes "message") = bytes "\"message\"" := by decide
  simp only [Marshal, messageEnvelope, encodeValue, encodeFields, h]
  simp [bytes]

theorem performed_append (w w1 : ResponseWriter) (l : List SinkOp) (h : w1.ops = w.ops ++ l) :
    performed w w1 = l := by
  simp [performed, h]

theorem SendError_ok (w : ResponseWriter) (message : List Nat) (statusCode : Int)
    (hm : message ≠ []) (hw : w.writeErr = none) :
    SendError w message statusCode
      = (((bytes "\x7b\"message\":" ++ appendString message ++ bytes "\x7d").length : Int), none,
          { ops := w.ops ++ sendOps statusCode
              (bytes "\x7b\"message\":" ++ appendString message ++ bytes "\x7d"),
            writeErr := none }) := by
  simp [SendError, hm, Marshal_messageEnvelope, ResponseWriter.Write, ResponseWriter.SetHeader,
    ResponseWriter.WriteHeader, hw, sendOps]

theorem SendSuccess_ok (w : ResponseWriter) (message : List Nat) (hw : w.writeErr = none) :
    SendSuccess w message
      = (((bytes "\x7b\"message\":" ++ appendString message ++ bytes "\x7d").length : Int), none,
          { ops := w.ops ++ sendOps 200
              (bytes "\x7b\"message\":" ++ appendString message ++ bytes "\x7d"),
            writeErr := none }) := by
  simp [SendSuccess, Marshal_messageEnvelope, ResponseWriter.Write, ResponseWriter.SetHeader,
    ResponseWriter.WriteHeader, hw, sendOps]

theorem SendError_ops (w : ResponseWriter) (message : List Nat) (statusCode : Int)
    (hm : message ≠ []) :
    (SendError w message statusCode).2.2.ops
      = w.ops ++ sendOps statusCode
          (bytes "\x7b\"message\":" ++ appendString message ++ bytes "\x7d") := by
  cases hw : w.writeErr <;>
    simp [SendError, hm, Marshal_messageEnvelope, ResponseWriter.Write, ResponseWriter.SetHeader,
      ResponseWriter.WriteHeader, hw, sendOps]

theorem SendSuccess_ops (w : ResponseWriter) (message : List Nat) :
    (SendSuccess w message).2.2.ops
      = w.ops ++ sendOps 200 (bytes "\x7b\"message\":" ++ appendString message ++ bytes "\x7d") := by
  cases hw : w.writeErr <;>
    simp [SendSuccess, Marshal_messageEnvelope, ResponseWriter.Write, ResponseWriter.SetHeader,
      ResponseWriter.WriteHeader, hw, sendOps]

theorem SendData_ops_ok (w : ResponseWriter) (data : Value) (statusCode : Int)
    (payload : List Nat) (h : Marshal data = .ok payload) :
    (SendData w data statusCode).2.2.ops = w.ops ++ sendOps statusCode payload := by
  cases hw : w.writeErr <;>
    simp [SendData, h, ResponseWriter.Write, ResponseWriter.SetHeader,
      ResponseWriter.WriteHeader, hw, sendOps]

theorem SendData_error (w : ResponseWriter) (data : Value) (statusCode : Int)
    (e : GoError) (h : Marshal data = .error e) :
    SendData w data statusCode
      = (0, some (GoError.New ("Could not marshal data into payload, " ++ e.Error)), w) := by
  simp [SendData, h]

theorem SendData_ok (w : ResponseWriter) (data : Value) (statusCode : Int)
    (payload : List Nat) (h : Marshal data = .ok payload) (hw : w.writeErr = none) :
    SendData w data statusCode
      = ((payload.length : Int), none,
          { ops := w.ops ++ sendOps statusCode payload, writeErr := none }) := by
  simp [SendData, h, ResponseWriter.Write, ResponseWriter.SetHeader,
    ResponseWriter.WriteHeader, hw, sendOps]

/-! ## Facts about the request decoder -/

theorem copyLimited_within (body : Body) (n : Nat) (h : body.data.length ≤ n)
    (he : body.err = none) : copyLimited body n = (body.data, none) := by
  unfold copyLimited
  split
  · simp [he]
  · simp [List.take_of_length_le h]

theorem copyLimited_beyond (body : Body) (n : Nat) (h : n < body.data.length) :
    copyLimited body n = (body.data.take n, none) := by
  unfold copyLimited
  have : ¬ body.data.length < n := by omega
  simp [this]

/-- The path of `DecodeData` after the length check, for a copy without error:
the decoder is called on the copied bytes and decides the outcome. -/
theorem DecodeData_read {τ : Type} (u : List Nat → τ → Option GoError × τ) (data : τ)
    (r : Request) (fullPost : List Nat)
    (h1 : r.ContentLength ≤ 1000000) (h2 : copyLimited r.Body maxPostSize = (fullPost, none)) :
    (DecodeData u data r).events
        = [DecodeEvent.read fullPost.length, DecodeEvent.unmarshal fullPost]
      ∧ (DecodeData u data r).target = (u fullPost data).2
      ∧ ((u fullPost data).1 = none →
          (DecodeData u data r).err = none
            ∧ (DecodeData u data r).value = some (u fullPost data).2)
      ∧ (∀ e, (u fullPost data).1 = some e →
          (DecodeData u data r).err = some (GoError.New ("Bad request " ++ e.Error))
            ∧ (DecodeData u data r).value = none) := by
  have h1 : ¬ r.ContentLength > (maxPostSize : Int) := by
    simp [maxPostSize]
    exact h1
  unfold DecodeData
  rw [if_neg h1, h2]
  rcases hu : u fullPost data with ⟨_ | e, t⟩ <;> simp [hu]

theorem skipWS_replicate (n : Nat) : skipWS (List.replicate n 32) = [] := by
  induction n with
  | zero => rfl
  | succ n ih => simp [List.replicate_succ, skipWS, isSpace, ih]

/-- The digit 7 followed by any number of spaces decodes to the integer 7 in
an `int64` variable. -/
theorem Unmarshal_seven_spaces (n : Nat) (target : Value) :
    Unmarshal GoType.int64 (55 :: List.replicate n 32) target = (none, Value.int 7) := by
  have hp : parseValue maxNestingDepth (55 :: List.replicate n 32)
      = some (Doc.int 7, List.replicate n 32) := by
    cases n with
    | zero =>
      simp [maxNestingDepth, parseValue, skipWS, isSpace, parseScalar, parseNumber,
        parseUnsigned, parseDigits, finishNumber, signed]
    | succ n =>
      simp [maxNestingDepth, parseValue, skipWS, isSpace, parseScalar, parseNumber,
        parseUnsigned, parseDigits, finishNumber, signed, List.replicate_succ]
  simp [Unmarshal, parseDocument, hp, skipWS_replicate, store]

theorem take_cons_replicate (k j a b : Nat) :
    List.take (k + 1) (a :: List.replicate (k + 1 + j) b) = a :: List.replicate k b := by
  simp [List.take_replicate]
  omega

/-! ## Facts about UTF-8 -/

theorem hexValue_hex (d : Nat) (h : d < 16) : hexValue (hex d) = some d := by
  interval_cases d <;> decide

theorem first_some (b sz lo hi : Nat) (h : first b = some (sz, lo, hi)) :
    (sz = 2 ∧ lo = 0x80 ∧ hi = 0xBF ∧ 0xC2 ≤ b ∧ b < 0xE0)
    ∨ (sz = 3 ∧ 0xE0 ≤ b ∧ b < 0xF0 ∧ 0x80 ≤ lo ∧ hi ≤ 0xBF
        ∧ (b = 0xE0 → lo = 0xA0) ∧ (b = 0xED → hi = 0x9F))
    ∨ (sz = 4 ∧ 0xF0 ≤ b ∧ b < 0xF5 ∧ 0x80 ≤ lo ∧ hi ≤ 0xBF
        ∧ (b = 0xF0 → lo = 0x90) ∧ (b = 0xF4 → hi = 0x8F)) := by
  unfold first at h
  split_ifs at h <;> simp at h <;> obtain ⟨rfl, rfl, rfl⟩ := h <;> omega

theorem DecodeRune_two (b s1 : Nat) (t : List Nat) (lo hi : Nat)
    (hf : first b = some (2, lo, hi)) (hb : ¬ b < 0x80) :
    DecodeRune (b :: s1 :: t)
      = if s1 < lo ∨ hi < s1 then (RuneError, 1) else (b % 32 * 64 + s1 % 64, 2) := by
  simp [DecodeRune, hb, hf]

theorem DecodeRune_three (b s1 s2 : Nat) (t : List Nat) (lo hi : Nat)
    (hf : first b = some (3, lo, hi)) (hb : ¬ b < 0x80) :
    DecodeRune (b :: s1 :: s2 :: t)
      = if s1 < lo ∨ hi < s1 then (RuneError, 1)
        else if s2 < 0x80 ∨ 0xBF < s2 then (RuneError, 1)
        else (b % 16 * 4096 + s1 % 64 * 64 + s2 % 64, 3) := by
  simp [DecodeRune, hb, hf]

theorem DecodeRune_four (b s1 s2 s3 : Nat) (t : List Nat) (lo hi : Nat)
    (hf : first b = some (4, lo, hi)) (hb : ¬ b < 0x80) :
    DecodeRune (b :: s1 :: s2 :: s3 :: t)
      = if s1 < lo ∨ hi < s1 then (RuneError, 1)
        else if s2 < 0x80 ∨ 0xBF < s2 then (RuneError, 1)
        else if s3 < 0x80 ∨ 0xBF < s3 then (RuneError, 1)
        else (b % 8 * 262144 + s1 % 64 * 4096 + s2 % 64 * 64 + s3 % 64, 4) := by
  simp [DecodeRune, hb, hf]

theorem DecodeRune_short (b : Nat) (t : List Nat) (sz lo hi : Nat)
    (hf : first b = some (sz, lo, hi)) (hb : ¬ b < 0x80) (hl : (b :: t).length < sz) :
    DecodeRune (b :: t) = (RuneError, 1) := by
  simp only [DecodeRune, hb, hf, if_false]
  rw [if_pos hl]

theorem DecodeRune_none (b : Nat) (t : List Nat)
    (hf : first b = none) (hb : ¬ b < 0x80) :
    DecodeRune (b :: t) = (RuneError, 1) := by
  simp [DecodeRune, hb, hf]


theorem DecodeRune_multibyte (b : Nat) (t : List Nat) (hb : 0x80 ≤ b)
    (h : (DecodeRune (b :: t)).2 ≠ 1) :
    ∃ c tl rest, t = tl ++ rest ∧ 1 ≤ tl.length
      ∧ DecodeRune (b :: t) = (c, tl.length + 1)
      ∧ EncodeRune c = b :: tl
      ∧ (∀ tail, DecodeRune (b :: tl ++ tail) = (c, tl.length + 1)) := by
  have hb' : ¬ b < 0x80 := by omega
  rcases hf : first b with _ | ⟨sz, lo, hi⟩
  · rw [DecodeRune_none b t hf hb'] at h
    exact absurd rfl h
  · rcases first_some b sz lo hi hf with ⟨rfl, rfl, rfl, h1, h2⟩ | ⟨rfl, h1, h2, h3, h4, h5, h6⟩
        | ⟨rfl, h1, h2, h3, h4, h5, h6⟩
    · rcases t with _ | ⟨s1, t1⟩
      · rw [DecodeRune_short b [] _ _ _ hf hb' (by simp)] at h
        exact absurd rfl h
      · rw [DecodeRune_two b s1 t1 _ _ hf hb'] at h ⊢
        by_cases hc : s1 < 0x80 ∨ 0xBF < s1
        · rw [if_pos hc] at h
          exact absurd rfl h
        · rw [if_neg hc]
          refine ⟨_, [s1], t1, rfl, by simp, rfl, ?_, ?_⟩
          · unfold EncodeRune
            rw [if_neg (by omega), if_pos (by omega)]
            congr 1
            · omega
            · congr 1
              omega
          · intro tail
            show DecodeRune (b :: s1 :: tail) = _
            rw [DecodeRune_two b s1 tail _ _ hf hb', if_neg hc]
            rfl
    · rcases t with _ | ⟨s1, _ | ⟨s2, t2⟩⟩
      · rw [DecodeRune_short b [] _ _ _ hf hb' (by simp)] at h
        exact absurd rfl h
      · rw [DecodeRune_short b [s1] _ _ _ hf hb' (by simp)] at h
        exact absurd rfl h
      · rw [DecodeRune_three b s1 s2 t2 _ _ hf hb'] at h ⊢
        by_cases hc : s1 < lo ∨ hi < s1
        · rw [if_pos hc] at h
          exact absurd rfl h
        · rw [if_neg hc] at h ⊢
          by_cases hc2 : s2 < 0x80 ∨ 0xBF < s2
          · rw [if_pos hc2] at h
            exact absurd rfl h
          · rw [if_neg hc2]
            refine ⟨_, [s1, s2], t2, rfl, by simp, rfl, ?_, ?_⟩
            · unfold EncodeRune
              rw [if_neg (by omega), if_neg (by omega), if_neg (by omega), if_pos (by omega)]
              congr 1
              · omega
              · congr 1
                · omega
                · congr 1
                  omega
            · intro tail
              show DecodeRune (b :: s1 :: s2 :: tail) = _
              rw [DecodeRune_three b s1 s2 tail _ _ hf hb', if_neg hc, if_neg hc2]
              rfl
    · rcases t with _ | ⟨s1, _ | ⟨s2, _ | ⟨s3, t3⟩⟩⟩
      · rw [DecodeRune_short b [] _ _ _ hf hb' (by simp)] at h
        exact absurd rfl h
      · rw [DecodeRune_short b [s1] _ _ _ hf hb' (by simp)] at h
        exact absurd rfl h
      · rw [DecodeRune_short b [s1, s2] _ _ _ hf hb' (by simp)] at h
        exact absurd rfl h
      · rw [DecodeRune_four b s1 s2 s3 t3 _ _ hf hb'] at h ⊢
        by_cases hc : s1 < lo ∨ hi < s1
        · rw [if_pos hc] at h
          exact absurd rfl h
        · rw [if_neg hc] at h ⊢
          by_cases hc2 : s2 < 0x80 ∨ 0xBF < s2
          · rw [if_pos hc2] at h
            exact absurd rfl h
          · rw [if_neg hc2] at h ⊢
            by_cases hc3 : s3 < 0x80 ∨ 0xBF < s3
            · rw [if_pos hc3] at h
              exact absurd rfl h
            · rw [if_neg hc3]
              refine ⟨_, [s1, s2, s3], t3, rfl, by simp, rfl, ?_, ?_⟩
              · unfold EncodeRune
                rw [if_neg (by omega), if_neg (by omega), if_neg (by omega), if_neg (by omega)]
                congr 1
                · omega
                · congr 1
                  · omega
                  · congr 1
                    · omega
                    · congr 1
                      omega
              · intro tail
                show DecodeRune (b :: s1 :: s2 :: s3 :: tail) = _
                rw [DecodeRune_four b s1 s2 s3 tail _ _ hf hb', if_neg hc, if_neg hc2,
                  if_neg hc3]
                rfl

/-! ## Decoding an encoded string -/

theorem parseStringLoop_escapeByte (b : Nat) (hb : b < 0x80)
    (fuel : Nat) (tail : List Nat) :
    parseStringLoop (fuel + 1) (escapeByte b ++ tail) = emit [b] (parseStringLoop fuel tail) := by
  unfold escapeByte
  split_ifs with h1 h2 h3 h4 h5 h6
  · rcases h1 with rfl | rfl <;> simp [parseStringLoop]
  · subst h2; simp [parseStringLoop]
  · subst h3; simp [parseStringLoop]
  · subst h4; simp [parseStringLoop]
  · subst h5; simp [parseStringLoop]
  · subst h6; simp [parseStringLoop]
  · have hx : hexValue (hex (b / 16)) = some (b / 16) := hexValue_hex _ (by omega)
    have hy : hexValue (hex (b % 16)) = some (b % 16) := hexValue_hex _ (by omega)
    have h0 : hexValue 48 = some 0 := by decide
    have hr : b / 16 * 16 + b % 16 = b := by omega
    have hsur : ¬ (0xD800 ≤ b ∧ b < 0xE000) := by omega
    have he : EncodeRune b = [b] := by simp [EncodeRune, hb]
    simp [parseStringLoop, getu4, hx, hy, h0, hr, hsur, he]

theorem escapeByte_length (b : Nat) : 2 ≤ (escapeByte b).length := by
  unfold escapeByte
  split_ifs <;> simp

theorem parseStringLoop_separator (c : Nat) (hc : c = 0x2028 ∨ c = 0x2029)
    (fuel : Nat) (tail : List Nat) :
    parseStringLoop (fuel + 1) (bytes "\\u202" ++ hex (c % 16) :: tail)
      = emit (EncodeRune c) (parseStringLoop fuel tail) := by
  rcases hc with rfl | rfl
  · have h : bytes "\\u202" ++ hex (0x2028 % 16) :: tail = 92 :: 117 :: 50 :: 48 :: 50 :: 56 :: tail := by
      simp [bytes, hex]
    have hg : getu4 (92 :: 117 :: 50 :: 48 :: 50 :: 56 :: tail) = some 0x2028 := by
      simp [getu4, hexValue]
    rw [h]
    simp [parseStringLoop, hg]
  · have h : bytes "\\u202" ++ hex (0x2029 % 16) :: tail = 92 :: 117 :: 50 :: 48 :: 50 :: 57 :: tail := by
      simp [bytes, hex]
    have hg : getu4 (92 :: 117 :: 50 :: 48 :: 50 :: 57 :: tail) = some 0x2029 := by
      simp [getu4, hexValue]
    rw [h]
    simp [parseStringLoop, hg]

theorem parseStringLoop_raw (b : Nat) (tl tail : List Nat) (c : Nat) (hb : 0x80 ≤ b)
    (hd : DecodeRune (b :: tl ++ tail) = (c, tl.length + 1)) (fuel : Nat) :
    parseStringLoop (fuel + 1) (b :: tl ++ tail)
      = emit (EncodeRune c) (parseStringLoop fuel tail) := by
  have h1 : ¬ b = 34 := by omega
  have h2 : ¬ b = 92 := by omega
  have h3 : ¬ b < 0x20 := by omega
  have h4 : ¬ b < 0x80 := by omega
  have hd' : DecodeRune (b :: (tl ++ tail)) = (c, tl.length + 1) := hd
  show parseStringLoop (fuel + 1) (b :: (tl ++ tail)) = _
  simp [parseStringLoop, h1, h2, h3, h4, hd']

/-- Decoding the text that the encoder wrote for a valid UTF-8 string, up to the
closing quote, gives the string back. -/
theorem parse_appendStringLoop : ∀ (fuel : Nat) (s : List Nat), validLoop fuel s = true →
    ∀ (pf : Nat) (rest : List Nat), (appendStringLoop fuel s ++ 34 :: rest).length ≤ pf →
      parseStringLoop pf (appendStringLoop fuel s ++ 34 :: rest) = some (s, rest) := by
  intro fuel
  induction fuel with
  | zero =>
    intro s hv pf rest hpf
    cases s with
    | nil =>
      cases pf with
      | zero => simp [appendStringLoop] at hpf
      | succ pf => simp [appendStringLoop, parseStringLoop]
    | cons b t => simp [validLoop] at hv
  | succ fuel ih =>
    intro s hv pf rest hpf
    cases s with
    | nil =>
      cases pf with
      | zero => simp [appendStringLoop] at hpf
      | succ pf => simp [appendStringLoop, parseStringLoop]
    | cons b t =>
      cases pf with
      | zero => simp at hpf
      | succ pf =>
        by_cases hb : b < 0x80
        · have hv' : validLoop fuel t = true := by simpa [validLoop, hb] using hv
          by_cases hs : htmlSafeSet b = true
          · have e : appendStringLoop (fuel + 1) (b :: t) = b :: appendStringLoop fuel t := by
              simp [appendStringLoop, hb, hs]
            rw [e] at hpf ⊢
            have h1 : ¬ b = 34 := by
              intro h; subst h; simp [htmlSafeSet] at hs
            have h2 : ¬ b = 92 := by
              intro h; subst h; simp [htmlSafeSet] at hs
            have h3 : ¬ b < 0x20 := by
              simp [htmlSafeSet] at hs
              omega
            have hrec := ih t hv' pf rest (by simp at hpf ⊢; omega)
            show parseStringLoop (pf + 1) (b :: (appendStringLoop fuel t ++ 34 :: rest)) = _
            simp [parseStringLoop, h1, h2, h3, hb, hrec, emit]
          · have e : appendStringLoop (fuel + 1) (b :: t)
                = escapeByte b ++ appendStringLoop fuel t := by
              simp [appendStringLoop, hb, hs]
            rw [e] at hpf ⊢
            have hl := escapeByte_length b
            have hrec := ih t hv' pf rest (by simp at hpf ⊢; omega)
            rw [List.append_assoc, parseStringLoop_escapeByte b hb, hrec]
            rfl
        · have hsz : ¬ (DecodeRune (b :: t)).2 = 1 := by
            intro h
            simp [validLoop, hb, h] at hv
          obtain ⟨c, tl, rest', rfl, hl, hd, he, htail⟩ :=
            DecodeRune_multibyte b t (by omega) hsz
          have htl : tl ≠ [] := by
            intro h
            simp [h] at hl
          have hv' : validLoop fuel rest' = true := by
            simpa [validLoop, hb, hd, htl] using hv
          by_cases hsep : c = 0x2028 ∨ c = 0x2029
          · have e : appendStringLoop (fuel + 1) (b :: (tl ++ rest'))
                = bytes "\\u202" ++ hex (c % 16) :: appendStringLoop fuel rest' := by
              simp [appendStringLoop, hb, hd, htl, hsep]
            rw [e] at hpf ⊢
            have hrec := ih rest' hv' pf rest (by simp [bytes] at hpf ⊢; omega)
            have e2 : (bytes "\\u202" ++ hex (c % 16) :: appendStringLoop fuel rest') ++ 34 :: rest
                = bytes "\\u202" ++ hex (c % 16) :: (appendStringLoop fuel rest' ++ 34 :: rest) := by
              simp
            rw [e2, parseStringLoop_separator c hsep, hrec, he]
            simp [emit]
          · have e : appendStringLoop (fuel + 1) (b :: (tl ++ rest'))
                = (b :: tl) ++ appendStringLoop fuel rest' := by
              simp [appendStringLoop, hb, hd, htl, hsep]
            rw [e] at hpf ⊢
            have hrec := ih rest' hv' pf rest (by simp at hpf ⊢; omega)
            rw [List.append_assoc,
              parseStringLoop_raw b tl _ c (by omega) (htail _), hrec, he]
            simp [emit]

theorem parseString_appendString (s rest : List Nat) (hv : Valid s = true) :
    parseScalar (appendString s ++ rest) = some (Doc.str s, rest) := by
  have h := parse_appendStringLoop s.length s hv _ rest (le_refl _)
  simp only [List.length_append, List.length_cons] at h
  simp [appendString, parseScalar, parseString, h]

/-! ## Decoding an encoded integer -/

theorem parseString_appendStringLoop (s rest : List Nat) (hv : Valid s = true) :
    parseString (appendStringLoop s.length s ++ 34 :: rest) = some (s, rest) :=
  parse_appendStringLoop s.length s hv _ rest (le_refl _)

theorem parseDigits_formatBits : ∀ (n fuel : Nat) (acc : List Nat), n < fuel →
    parseDigits (formatBits fuel n acc) 0 = parseDigits acc n := by
  intro n
  induction n using Nat.strong_induction_on with
  | _ n ih =>
    intro fuel acc hf
    cases fuel with
    | zero => omega
    | succ fuel =>
      by_cases h : n < 10
      · have h1 : 48 ≤ 48 + n ∧ 48 + n ≤ 57 := by omega
        simp [formatBits, h, parseDigits, h1]
      · have h1 : 48 ≤ 48 + n % 10 ∧ 48 + n % 10 ≤ 57 := by omega
        have h2 : n / 10 * 10 + n % 10 = n := by omega
        have hrec := ih (n / 10) (by omega) fuel ((48 + n % 10) :: acc) (by omega)
        simp [formatBits, h, hrec, parseDigits, h1, h2]

theorem formatBits_head : ∀ (n fuel : Nat) (acc : List Nat), n < fuel → 0 < n →
    ∃ c tail, formatBits fuel n acc = c :: tail ∧ 49 ≤ c ∧ c ≤ 57 := by
  intro n
  induction n using Nat.strong_induction_on with
  | _ n ih =>
    intro fuel acc hf hn
    cases fuel with
    | zero => omega
    | succ fuel =>
      by_cases h : n < 10
      · exact ⟨48 + n, acc, by simp [formatBits, h], by omega, by omega⟩
      · have hrec := ih (n / 10) (by omega) fuel ((48 + n % 10) :: acc) (by omega) (by omega)
        simpa [formatBits, h] using hrec

theorem formatBits_acc : ∀ (n fuel : Nat) (acc : List Nat), n < fuel →
    formatBits fuel n [] ++ acc = formatBits fuel n acc := by
  intro n
  induction n using Nat.strong_induction_on with
  | _ n ih =>
    intro fuel acc hf
    cases fuel with
    | zero => omega
    | succ fuel =>
      by_cases h : n < 10
      · simp [formatBits, h]
      · have h1 := ih (n / 10) (by omega) fuel [48 + n % 10] (by omega)
        have h2 := ih (n / 10) (by omega) fuel ((48 + n % 10) :: acc) (by omega)
        simp only [formatBits, h, if_false]
        rw [← h1, ← h2]
        simp

theorem parseDigits_stop (n : Nat) (rest : List Nat)
    (h : ∀ c t, rest = c :: t → ¬ (48 ≤ c ∧ c ≤ 57)) : parseDigits rest n = (n, rest) := by
  cases rest with
  | nil => rfl
  | cons c t => simp [parseDigits, h c t rfl]

theorem finishNumber_terminated (neg : Bool) (n : Nat) (rest : List Nat) (h : Terminated rest) :
    finishNumber neg n rest = some (Doc.int (signed neg n), rest) := by
  rcases h with rfl | ⟨c, t, rfl, hc⟩
  · rfl
  · have h1 : ¬ c = 46 := by omega
    have h2 : ¬ (c = 101 ∨ c = 69) := by omega
    simp [finishNumber, h1, h2]

theorem parseUnsigned_formatBits (neg : Bool) (n : Nat) (rest : List Nat) (h : Terminated rest) :
    parseUnsigned neg (formatBits (n + 1) n [] ++ rest) = finishNumber neg n rest := by
  have hstop : ∀ c t, rest = c :: t → ¬ (48 ≤ c ∧ c ≤ 57) := by
    intro c t hr
    rcases h with rfl | ⟨c', t', rfl, hc⟩
    · simp at hr
    · simp at hr
      omega
  rcases Nat.eq_zero_or_pos n with rfl | hn
  · simp [formatBits, parseUnsigned]
  · rw [formatBits_acc n (n + 1) rest (by omega)]
    obtain ⟨c, tail, hc, h1, h2⟩ := formatBits_head n (n + 1) rest (by omega) hn
    have hd := parseDigits_formatBits n (n + 1) rest (by omega)
    rw [parseDigits_stop n rest hstop] at hd
    rw [hc] at hd ⊢
    have h3 : ¬ c = 48 := by omega
    simp [parseUnsigned, h3, h1, h2, hd]

/-- Reading the decimal text of an integer gives the integer back. -/
theorem parseNumber_appendInt (n : Int) (rest : List Nat) (h : Terminated rest) :
    parseNumber (appendInt n ++ rest) = some (Doc.int n, rest) := by
  unfold appendInt
  by_cases hn : n < 0
  · rw [if_pos hn]
    have h2 : signed true n.natAbs = n := by
      simp only [signed, if_true]
      omega
    have e : parseNumber (45 :: formatBits (n.natAbs + 1) n.natAbs [] ++ rest)
        = parseUnsigned true (formatBits (n.natAbs + 1) n.natAbs [] ++ rest) := by
      simp [parseNumber]
    rw [e, parseUnsigned_formatBits true n.natAbs rest h,
      finishNumber_terminated true n.natAbs rest h, h2]
  · rw [if_neg hn]
    have h2 : signed false n.natAbs = n := by
      simp only [signed, Bool.false_eq_true, if_false]
      omega
    have hp := parseUnsigned_formatBits false n.natAbs rest h
    rw [finishNumber_terminated false n.natAbs rest h, h2] at hp
    rcases Nat.eq_zero_or_pos n.natAbs with h0 | hpos
    · have e : formatBits (n.natAbs + 1) n.natAbs [] = [48] := by
        rw [h0]
        rfl
      rw [e] at hp ⊢
      rw [← hp]
      simp [parseNumber]
    · obtain ⟨c, tail, hc, hc1, hc2⟩ := formatBits_head n.natAbs (n.natAbs + 1) [] (by omega) hpos
      rw [hc] at hp ⊢
      have h3 : ¬ c = 45 := by omega
      rw [← hp]
      simp [parseNumber, h3]

/-! ## Decoding an encoded value -/

theorem StartByte_not_space (c : Nat) (h : StartByte c) : isSpace c = false := by
  unfold StartByte at h
  simp [isSpace]
  omega

theorem skipWS_start (c : Nat) (t : List Nat) (h : StartByte c) : skipWS (c :: t) = c :: t := by
  simp [skipWS, StartByte_not_space c h]

theorem appendInt_head (n : Int) : ∃ c t, appendInt n = c :: t ∧ (c = 45 ∨ (48 ≤ c ∧ c ≤ 57)) := by
  unfold appendInt
  split
  · exact ⟨45, _, rfl, Or.inl rfl⟩
  · rcases Nat.eq_zero_or_pos n.natAbs with h0 | hpos
    · refine ⟨48, [], ?_, Or.inr (by omega)⟩
      rw [h0]
      rfl
    · obtain ⟨c, tail, hc, h1, h2⟩ := formatBits_head n.natAbs (n.natAbs + 1) [] (by omega) hpos
      exact ⟨c, tail, hc, Or.inr (by omega)⟩

theorem encodeValue_head (v : Value) (b : List Nat) (h : encodeValue v = some b) :
    ∃ c t, b = c :: t ∧ StartByte c := by
  cases v with
  | null =>
    simp [encodeValue, bytes] at h
    exact ⟨110, _, h.symm, by simp [StartByte]⟩
  | bool x =>
    cases x
    · simp [encodeValue, bytes] at h
      exact ⟨102, _, h.symm, by simp [StartByte]⟩
    · simp [encodeValue, bytes] at h
      exact ⟨116, _, h.symm, by simp [StartByte]⟩
  | int n =>
    simp [encodeValue] at h
    obtain ⟨c, t, hc, h1⟩ := appendInt_head n
    refine ⟨c, t, by rw [← h, hc], ?_⟩
    unfold StartByte
    omega
  | str s =>
    simp [encodeValue, appendString] at h
    exact ⟨34, _, h.symm, by simp [StartByte]⟩
  | arr xs =>
    simp only [encodeValue] at h
    cases he : encodeElems xs with
    | none => simp [he] at h
    | some e =>
      simp [he] at h
      exact ⟨91, _, h.symm, by simp [StartByte]⟩
  | obj fs =>
    simp only [encodeValue] at h
    cases he : encodeFields fs with
    | none => simp [he] at h
    | some e =>
      simp [he] at h
      exact ⟨123, _, h.symm, by simp [StartByte]⟩
  | chan => simp [encodeValue] at h

theorem parseValue_scalar (d c : Nat) (t : List Nat) (h : StartByte c)
    (h1 : c ≠ 91) (h2 : c ≠ 123) : parseValue d (c :: t) = parseScalar (c :: t) := by
  cases d <;> simp [parseValue, skipWS_start c t h, h1, h2]

theorem parseScalar_number (c : Nat) (t : List Nat) (h : c = 45 ∨ (48 ≤ c ∧ c ≤ 57)) :
    parseScalar (c :: t) = parseNumber (c :: t) := by
  have h1 : ¬ c = 110 := by omega
  have h2 : ¬ c = 116 := by omega
  have h3 : ¬ c = 102 := by omega
  have h4 : ¬ c = 34 := by omega
  simp [parseScalar, h1, h2, h3, h4]

theorem encodeElems_cons (v : Value) (v2 : Value) (r : Elems) (e : List Nat)
    (h : encodeElems (.cons v (.cons v2 r)) = some e) :
    ∃ a b, encodeValue v = some a ∧ encodeElems (.cons v2 r) = some b ∧ e = a ++ 44 :: b := by
  simp only [encodeElems] at h
  cases ha : encodeValue v with
  | none => simp [ha] at h
  | some a =>
    cases hb : encodeElems (.cons v2 r) with
    | none => simp [ha, hb] at h
    | some b =>
      simp [ha, hb] at h
      exact ⟨a, b, rfl, rfl, h.symm⟩

theorem encodeElems_head (v : Value) (r : Elems) (e : List Nat)
    (h : encodeElems (.cons v r) = some e) : ∃ c t, e = c :: t ∧ StartByte c := by
  cases r with
  | nil =>
    simp only [encodeElems] at h
    exact encodeValue_head v e h
  | cons v2 r2 =>
    obtain ⟨a, b, ha, _, rfl⟩ := encodeElems_cons v v2 r2 e h
    obtain ⟨c, t, rfl, hc⟩ := encodeValue_head v a ha
    exact ⟨c, _, rfl, hc⟩

theorem encodeFields_cons (k : List Nat) (v : Value) (k2 : List Nat) (v2 : Value) (r : Fields)
    (e : List Nat) (h : encodeFields (.cons k v (.cons k2 v2 r)) = some e) :
    ∃ a b, encodeValue v = some a ∧ encodeFields (.cons k2 v2 r) = some b
      ∧ e = appendString k ++ 58 :: a ++ 44 :: b := by
  simp only [encodeFields] at h
  cases ha : encodeValue v with
  | none => simp [ha] at h
  | some a =>
    cases hb : encodeFields (.cons k2 v2 r) with
    | none => simp [ha, hb] at h
    | some b =>
      simp [ha, hb] at h
      exact ⟨a, b, rfl, rfl, by rw [← h]; simp⟩

theorem encodeFields_single (k : List Nat) (v : Value) (e : List Nat)
    (h : encodeFields (.cons k v .nil) = some e) :
    ∃ a, encodeValue v = some a ∧ e = appendString k ++ 58 :: a := by
  simp only [encodeFields] at h
  cases ha : encodeValue v with
  | none => simp [ha] at h
  | some a =>
    simp [ha] at h
    exact ⟨a, rfl, by rw [← h]⟩

theorem encodeFields_head (k : List Nat) (v : Value) (r : Fields) (e : List Nat)
    (h : encodeFields (.cons k v r) = some e) : ∃ t, e = 34 :: t := by
  cases r with
  | nil =>
    obtain ⟨a, _, rfl⟩ := encodeFields_single k v e h
    exact ⟨appendStringLoop k.length k ++ 34 :: 58 :: a, by simp [appendString]⟩
  | cons k2 v2 r2 =>
    obtain ⟨a, b, _, _, rfl⟩ := encodeFields_cons k v k2 v2 r2 e h
    exact ⟨appendStringLoop k.length k ++ 34 :: 58 :: (a ++ 44 :: b), by simp [appendString]⟩

theorem Terminated_cons (c : Nat) (t : List Nat) (h : c = 44 ∨ c = 93 ∨ c = 125) :
    Terminated (c :: t) :=
  Or.inr ⟨c, t, rfl, h⟩

/-! The decoder inverts the encoder on values, elements and fields, by
recursion on the structure of the data. -/

mutual
theorem parseValue_encodeValue : ∀ (v : Value) (b : List Nat), encodeValue v = some b →
    v.valid = true → ∀ (d : Nat), v.depth ≤ d → ∀ (rest : List Nat), Terminated rest →
      parseValue d (b ++ rest) = some (docOf v, rest)
  | .null, b, he, _, d, _, rest, _ => by
    simp [encodeValue, bytes] at he
    subst he
    rw [List.cons_append, parseValue_scalar d 110 _ (by simp [StartByte]) (by decide) (by decide)]
    simp [parseScalar, docOf]
  | .bool true, b, he, _, d, _, rest, _ => by
    simp [encodeValue, bytes] at he
    subst he
    rw [List.cons_append, parseValue_scalar d 116 _ (by simp [StartByte]) (by decide) (by decide)]
    simp [parseScalar, docOf]
  | .bool false, b, he, _, d, _, rest, _ => by
    simp [encodeValue, bytes] at he
    subst he
    rw [List.cons_append, parseValue_scalar d 102 _ (by simp [StartByte]) (by decide) (by decide)]
    simp [parseScalar, docOf]
  | .int n, b, he, hv, d, _, rest, ht => by
    simp [encodeValue] at he
    subst he
    obtain ⟨c, t, hc, h1⟩ := appendInt_head n
    have hp := parseNumber_appendInt n rest ht
    rw [hc, List.cons_append] at hp
    rw [hc, List.cons_append,
      parseValue_scalar d c _ (by unfold StartByte; omega) (by omega) (by omega),
      parseScalar_number c _ h1, hp]
    rfl
  | .str s, b, he, hv, d, _, rest, _ => by
    simp only [encodeValue, Option.some.injEq] at he
    subst he
    have hp := parseString_appendString s rest hv
    have e : appendString s ++ rest = 34 :: (appendStringLoop s.length s ++ [34] ++ rest) := by
      simp [appendString]
    rw [e] at hp ⊢
    rw [parseValue_scalar d 34 _ (by simp [StartByte]) (by decide) (by decide), hp]
    rfl
  | .chan, b, he, _, _, _, _, _ => by
    simp [encodeValue] at he
  | .arr xs, b, he, hv, d, hd, rest, ht => by
    have ih := parseElems_encodeElems xs
    simp only [encodeValue] at he
    cases hx : encodeElems xs with
    | none => simp [hx] at he
    | some e =>
      simp [hx] at he
      subst he
      cases d with
      | zero => simp [Value.depth] at hd
      | succ d =>
        have hd' : xs.depth ≤ d := by
          simp [Value.depth] at hd
          exact hd
        have hv' : xs.valid = true := by simpa [Value.valid] using hv
        cases xs with
        | nil =>
          simp [encodeElems] at hx
          subst hx
          simp [parseValue, skipWS, isSpace, docOf, docsOf, membersOf]
        | cons v r =>
          obtain ⟨c, t, rfl, hc⟩ := encodeElems_head v r e hx
          have hc93 : ¬ c = 93 := by
            unfold StartByte at hc
            omega
          have hrec := ih (c :: t) hx (by simp) hv' d hd' ((c :: t ++ 93 :: rest).length)
            (by simp) rest
          have e1 : 91 :: (c :: t ++ [93]) ++ rest = 91 :: (c :: t ++ 93 :: rest) := by simp
          rw [e1]
          have hs : skipWS (c :: (t ++ 93 :: rest)) = c :: (t ++ 93 :: rest) :=
            skipWS_start c _ hc
          simp only [List.cons_append, List.length_cons, List.length_append] at hrec
          simp only [parseValue, skipWS, isSpace]
          simp [hs, hc93, hrec, docOf]
  | .obj fs, b, he, hv, d, hd, rest, ht => by
    have ih := parseFields_encodeFields fs
    simp only [encodeValue] at he
    cases hx : encodeFields fs with
    | none => simp [hx] at he
    | some e =>
      simp [hx] at he
      subst he
      cases d with
      | zero => simp [Value.depth] at hd
      | succ d =>
        have hd' : fs.depth ≤ d := by
          simp [Value.depth] at hd
          exact hd
        have hv' : fs.valid = true := by simpa [Value.valid] using hv
        cases fs with
        | nil =>
          simp [encodeFields] at hx
          subst hx
          simp [parseValue, skipWS, isSpace, docOf, docsOf, membersOf]
        | cons k v r =>
          obtain ⟨t, rfl⟩ := encodeFields_head k v r e hx
          have hrec := ih (34 :: t) hx (by simp) hv' d hd' ((34 :: t ++ 125 :: rest).length)
            (by simp) rest
          have e1 : 123 :: (34 :: t ++ [125]) ++ rest = 123 :: (34 :: t ++ 125 :: rest) := by simp
          rw [e1]
          have hs : skipWS (34 :: (t ++ 125 :: rest)) = 34 :: (t ++ 125 :: rest) :=
            skipWS_start 34 _ (by simp [StartByte])
          simp only [List.cons_append, List.length_cons, List.length_append] at hrec
          simp only [parseValue, skipWS, isSpace]
          simp [hs, hrec, docOf]
theorem parseElems_encodeElems : ∀ (xs : Elems) (b : List Nat), encodeElems xs = some b →
    xs ≠ Elems.nil → xs.valid = true → ∀ (d : Nat), xs.depth ≤ d →
      ∀ (n : Nat), b.length < n → ∀ (rest : List Nat),
        parseElemsLoop (fun i => parseValue d i) n (b ++ 93 :: rest) = some (docsOf xs, rest)
  | .nil, _, _, hne, _, _, _, _, _, _ => by
    exact absurd rfl hne
  | .cons v .nil, b, he, _, hv, d, hd, n, hn, rest => by
    simp only [encodeElems] at he
    have hv' : v.valid = true := by simpa [Elems.valid] using hv
    have hd' : v.depth ≤ d := by simpa [Elems.depth] using hd
    have hp := parseValue_encodeValue v b he hv' d hd' (93 :: rest)
      (Terminated_cons 93 rest (by simp))
    cases n with
    | zero => omega
    | succ n => simp [parseElemsLoop, hp, skipWS, isSpace, docsOf]
  | .cons v (.cons v2 r), b, he, _, hv, d, hd, n, hn, rest => by
    obtain ⟨a, b2, ha, hb2, rfl⟩ := encodeElems_cons v v2 r b he
    have hv1 : v.valid = true ∧ (Elems.cons v2 r).valid = true := by
      simpa [Elems.valid] using hv
    have hd1 : v.depth ≤ d ∧ (Elems.cons v2 r).depth ≤ d := by
      simpa [Elems.depth] using hd
    have hp := parseValue_encodeValue v a ha hv1.1 d hd1.1 (44 :: (b2 ++ 93 :: rest))
      (Terminated_cons 44 _ (by simp))
    cases n with
    | zero => omega
    | succ n =>
      have hrec := parseElems_encodeElems (.cons v2 r) b2 hb2 (by simp) hv1.2 d hd1.2 n
        (by simp at hn; omega) rest
      have e1 : a ++ 44 :: b2 ++ 93 :: rest = a ++ 44 :: (b2 ++ 93 :: rest) := by simp
      rw [e1]
      simp [parseElemsLoop, hp, skipWS, isSpace, hrec, docsOf]
theorem parseFields_encodeFields : ∀ (fs : Fields) (b : List Nat), encodeFields fs = some b →
    fs ≠ Fields.nil → fs.valid = true → ∀ (d : Nat), fs.depth ≤ d →
      ∀ (n : Nat), b.length < n → ∀ (rest : List Nat),
        parseFieldsLoop (fun i => parseValue d i) n (b ++ 125 :: rest) = some (membersOf fs, rest)
  | .nil, _, _, hne, _, _, _, _, _, _ => by
    exact absurd rfl hne
  | .cons k v .nil, b, he, _, hv, d, hd, n, hn, rest => by
    obtain ⟨a, ha, rfl⟩ := encodeFields_single k v b he
    have hv1 : Valid k = true ∧ v.valid = true := by
      simpa [Fields.valid] using hv
    have hd' : v.depth ≤ d := by simpa [Fields.depth] using hd
    have hp := parseValue_encodeValue v a ha hv1.2 d hd' (125 :: rest)
      (Terminated_cons 125 rest (by simp))
    have hk := parseString_appendStringLoop k (58 :: (a ++ 125 :: rest)) hv1.1
    cases n with
    | zero => omega
    | succ n =>
      have e1 : appendString k ++ 58 :: a ++ 125 :: rest
          = 34 :: (appendStringLoop k.length k ++ 34 :: 58 :: (a ++ 125 :: rest)) := by
        simp [appendString]
      rw [e1]
      simp [parseFieldsLoop, skipWS, isSpace, hk, hp, membersOf]
  | .cons k v (.cons k2 v2 r), b, he, _, hv, d, hd, n, hn, rest => by
    obtain ⟨a, b2, ha, hb2, rfl⟩ := encodeFields_cons k v k2 v2 r b he
    have hv1 : (Valid k = true ∧ v.valid = true) ∧ (Fields.cons k2 v2 r).valid = true := by
      simpa [Fields.valid] using hv
    have hd1 : v.depth ≤ d ∧ (Fields.cons k2 v2 r).depth ≤ d := by
      simpa [Fields.depth] using hd
    have hp := parseValue_encodeValue v a ha hv1.1.2 d hd1.1 (44 :: (b2 ++ 125 :: rest))
      (Terminated_cons 44 _ (by simp))
    have hk := parseString_appendStringLoop k (58 :: (a ++ 44 :: (b2 ++ 125 :: rest))) hv1.1.1
    cases n with
    | zero => omega
    | succ n =>
      have hrec := parseFields_encodeFields (.cons k2 v2 r) b2 hb2 (by simp) hv1.2 d hd1.2 n
        (by simp at hn; omega) rest
      have e1 : appendString k ++ 58 :: a ++ 44 :: b2 ++ 125 :: rest
          = 34 :: (appendStringLoop k.length k
              ++ 34 :: 58 :: (a ++ 44 :: (b2 ++ 125 :: rest))) := by
        simp [appendString]
      rw [e1]
      simp [parseFieldsLoop, skipWS, isSpace, hk, hp, hrec, membersOf]
end


/-- Reading the encoding of a value gives the document of the value, when
its strings are valid UTF-8 and its nesting stays within the limit of the
scanner. -/
theorem parseDocument_Marshal (v : Value) (b : List Nat)
    (he : Marshal v = .ok b) (hv : v.valid = true) (hd : v.depth ≤ maxNestingDepth) :
    parseDocument b = some (docOf v) := by
  have he' : encodeValue v = some b := by
    unfold Marshal at he
    cases h : encodeValue v with
    | none => simp [h] at he
    | some x =>
      simp [h] at he
      rw [he]
  have hp := parseValue_encodeValue v b he' hv maxNestingDepth hd [] (Or.inl rfl)
  rw [List.append_nil] at hp
  simp [parseDocument, hp, skipWS]

/-! ## Strings that are written without escapes -/

theorem DecodeRune_classify (b : Nat) (t : List Nat) (hb : 0x80 ≤ b) :
    DecodeRune (b :: t) = (RuneError, 1) ∨ (DecodeRune (b :: t)).2 ≠ 1 := by
  by_cases h : (DecodeRune (b :: t)).2 = 1
  · left
    have hb' : ¬ b < 0x80 := by omega
    rcases hf : first b with _ | ⟨sz, lo, hi⟩
    · exact DecodeRune_none b t hf hb'
    · rcases first_some b sz lo hi hf with ⟨rfl, rfl, rfl, h1, h2⟩ | ⟨rfl, h1, h2, h3, h4, h5, h6⟩
          | ⟨rfl, h1, h2, h3, h4, h5, h6⟩
      · rcases t with _ | ⟨s1, t1⟩
        · exact DecodeRune_short b [] _ _ _ hf hb' (by simp)
        · rw [DecodeRune_two b s1 t1 _ _ hf hb'] at h ⊢
          split_ifs at h ⊢ with hc
          · rfl
          · simp at h
      · rcases t with _ | ⟨s1, _ | ⟨s2, t2⟩⟩
        · exact DecodeRune_short b [] _ _ _ hf hb' (by simp)
        · exact DecodeRune_short b [s1] _ _ _ hf hb' (by simp)
        · rw [DecodeRune_three b s1 s2 t2 _ _ hf hb'] at h ⊢
          split_ifs at h ⊢ <;> first | rfl | simp at h
      · rcases t with _ | ⟨s1, _ | ⟨s2, _ | ⟨s3, t3⟩⟩⟩
        · exact DecodeRune_short b [] _ _ _ hf hb' (by simp)
        · exact DecodeRune_short b [s1] _ _ _ hf hb' (by simp)
        · exact DecodeRune_short b [s1, s2] _ _ _ hf hb' (by simp)
        · rw [DecodeRune_four b s1 s2 s3 t3 _ _ hf hb'] at h ⊢
          split_ifs at h ⊢ <;> first | rfl | simp at h
  · exact Or.inr h

/-- The loop of `appendString` never writes fewer bytes than it reads, and it
writes more as soon as one step escapes. -/
theorem appendStringLoop_length : ∀ (fuel : Nat) (s : List Nat), s.length ≤ fuel →
    s.length ≤ (appendStringLoop fuel s).length
      ∧ (unescapedLoop fuel s = false → s.length < (appendStringLoop fuel s).length) := by
  intro fuel
  induction fuel with
  | zero =>
    intro s hs
    cases s with
    | nil => simp [appendStringLoop, unescapedLoop]
    | cons b t => simp at hs
  | succ fuel ih =>
    intro s hs
    cases s with
    | nil => simp [appendStringLoop, unescapedLoop]
    | cons b t =>
      have hl : t.length ≤ fuel := by simpa using hs
      by_cases hb : b < 0x80
      · by_cases hsafe : htmlSafeSet b = true
        · have h := ih t hl
          simp only [appendStringLoop, unescapedLoop, hb, hsafe, if_true, Bool.true_and,
            List.length_cons]
          exact ⟨by omega, fun hu => by have := h.2 hu; omega⟩
        · have h := ih t hl
          have he := escapeByte_length b
          have hsafe' : htmlSafeSet b = false := by simpa using hsafe
          simp only [appendStringLoop, hb, hsafe', if_true, List.length_cons,
            List.length_append, Bool.false_eq_true, if_false]
          exact ⟨by omega, fun _ => by omega⟩
      · rcases DecodeRune_classify b t (by omega) with hd | hd
        · have h := ih t hl
          simp only [appendStringLoop, hb, hd, if_false, and_self, if_true, List.length_cons,
            List.length_append]
          have : (bytes "\\ufffd").length = 6 := by decide
          exact ⟨by omega, fun _ => by omega⟩
        · obtain ⟨c, tl, rest', rfl, hl1, hdec, he, _⟩ := DecodeRune_multibyte b t (by omega) hd
          have htl : tl ≠ [] := by
            intro h
            simp [h] at hl1
          have hlr : rest'.length ≤ fuel := by
            simp at hl
            omega
          have h := ih rest' hlr
          by_cases hsep : c = 0x2028 ∨ c = 0x2029
          · have e : appendStringLoop (fuel + 1) (b :: (tl ++ rest'))
                = bytes "\\u202" ++ hex (c % 16) :: appendStringLoop fuel rest' := by
              simp [appendStringLoop, hb, hdec, htl, hsep]
            have hlen : EncodeRune c = b :: tl := he
            have h3 : tl.length + 1 ≤ 3 := by
              have : (EncodeRune c).length = 3 := by
                rcases hsep with rfl | rfl <;> decide
              rw [hlen] at this
              simp at this
              omega
            rw [e]
            have : (bytes "\\u202").length = 5 := by decide
            simp only [List.length_cons, List.length_append, this]
            exact ⟨by omega, fun _ => by omega⟩
          · have e : appendStringLoop (fuel + 1) (b :: (tl ++ rest'))
                = (b :: tl) ++ appendStringLoop fuel rest' := by
              simp [appendStringLoop, hb, hdec, htl, hsep]
            have eu : unescapedLoop (fuel + 1) (b :: (tl ++ rest')) = unescapedLoop fuel rest' := by
              simp [unescapedLoop, hb, hdec, htl, hsep]
            rw [e, eu]
            simp only [List.length_cons, List.length_append]
            exact ⟨by omega, fun hu => by have := h.2 hu; omega⟩

theorem appendStringLoop_unescaped : ∀ (fuel : Nat) (s : List Nat),
    unescapedLoop fuel s = true → appendStringLoop fuel s = s := by
  intro fuel
  induction fuel with
  | zero =>
    intro s hu
    cases s with
    | nil => rfl
    | cons b t => simp [unescapedLoop] at hu
  | succ fuel ih =>
    intro s hu
    cases s with
    | nil => rfl
    | cons b t =>
      by_cases hb : b < 0x80
      · simp only [unescapedLoop, hb, if_true, Bool.and_eq_true] at hu
        simp [appendStringLoop, hb, hu.1, ih t hu.2]
      · rcases DecodeRune_classify b t (by omega) with hd | hd
        · simp [unescapedLoop, hb, hd] at hu
        · obtain ⟨c, tl, rest', rfl, hl1, hdec, he, _⟩ := DecodeRune_multibyte b t (by omega) hd
          have htl : tl ≠ [] := by
            intro h
            simp [h] at hl1
          by_cases hsep : c = 0x2028 ∨ c = 0x2029
          · simp [unescapedLoop, hb, hdec, htl, hsep] at hu
          · have hu' : unescapedLoop fuel rest' = true := by
              simpa [unescapedLoop, hb, hdec, htl, hsep] using hu
            simp [appendStringLoop, hb, hdec, htl, hsep, ih rest' hu']

theorem appendString_eq_iff (s : List Nat) :
    appendString s = 34 :: s ++ [34] ↔ unescaped s = true := by
  constructor
  · intro h
    have h1 : appendStringLoop s.length s = s := by
      simpa [appendString] using h
    by_contra hu
    have hu' : unescapedLoop s.length s = false := by
      simpa [unescaped] using hu
    have := (appendStringLoop_length s.length s (le_refl _)).2 hu'
    rw [h1] at this
    omega
  · intro hu
    simp [appendString, appendStringLoop_unescaped s.length s hu]

/-! ## Storing the document of a value -/

theorem keyLt_irrefl : ∀ (s : List Nat), keyLt s s = false
  | [] => rfl
  | a :: s => by simp [keyLt, keyLt_irrefl s]

theorem keyLt_asymm : ∀ (s t : List Nat), keyLt s t = true → keyLt t s = false
  | [], [], h => by simp [keyLt] at h
  | [], _ :: _, _ => rfl
  | _ :: _, [], h => by simp [keyLt] at h
  | a :: s, b :: t, h => by
    simp only [keyLt, Bool.or_eq_true, Bool.and_eq_true, decide_eq_true_eq] at h
    rcases h with h | ⟨h1, h2⟩
    · have h1 : ¬ b < a := by omega
      have h2 : ¬ b = a := by omega
      simp [keyLt, h1, h2]
    · have h3 := keyLt_asymm s t h2
      subst h1
      simp [keyLt, h3]

theorem keyLt_ne (s t : List Nat) (h : keyLt s t = true) : t ≠ s := by
  intro e
  subst e
  rw [keyLt_irrefl] at h
  exact Bool.false_ne_true h

theorem insertField_snoc : ∀ (acc : Fields) (k : List Nat) (v : Value),
    allBelow k acc = true → insertField k v acc = Fields.append acc (Fields.cons k v Fields.nil)
  | .nil, _, _, _ => rfl
  | .cons k2 v2 rest, k, v, h => by
    simp only [allBelow, Bool.and_eq_true] at h
    have h1 : ¬ k = k2 := keyLt_ne k2 k h.1
    have h2 : keyLt k k2 = false := keyLt_asymm k2 k h.1
    simp [insertField, Fields.append, h1, h2, insertField_snoc rest k v h.2]

theorem allBelow_snoc : ∀ (acc : Fields) (k : List Nat) (v : Value) (key : List Nat),
    allBelow key (Fields.append acc (Fields.cons k v Fields.nil))
      = (allBelow key acc && keyLt k key)
  | .nil, _, _, _ => by simp [Fields.append, allBelow]
  | .cons k2 v2 rest, k, v, key => by
    simp [Fields.append, allBelow, allBelow_snoc rest k v key, Bool.and_assoc]

theorem keysAbove_snoc : ∀ (fs acc : Fields) (k : List Nat) (v : Value),
    keysAbove acc fs = true → allAbove k fs = true →
      keysAbove (Fields.append acc (Fields.cons k v Fields.nil)) fs = true
  | .nil, _, _, _, _, _ => rfl
  | .cons k2 v2 rest, acc, k, v, h1, h2 => by
    simp only [keysAbove, allAbove, Bool.and_eq_true] at h1 h2
    simp [keysAbove, allBelow_snoc, h1.1, h2.1, keysAbove_snoc rest acc k v h1.2 h2.2]

theorem keysAbove_nil : ∀ (fs : Fields), keysAbove Fields.nil fs = true
  | .nil => rfl
  | .cons _ _ rest => by simp [keysAbove, allBelow, keysAbove_nil rest]

theorem append_nil : ∀ (a : Fields), Fields.append a Fields.nil = a
  | .nil => rfl
  | .cons k v rest => by simp [Fields.append, append_nil rest]

theorem append_snoc : ∀ (acc : Fields) (k : List Nat) (v : Value) (fs : Fields),
    Fields.append (Fields.append acc (Fields.cons k v Fields.nil)) fs
      = Fields.append acc (Fields.cons k v fs)
  | .nil, _, _, _ => rfl
  | .cons k2 v2 rest, k, v, fs => by
    simp [Fields.append, append_snoc rest k v fs]

/-! Storing the document of a well-typed value into a fresh variable of its
type gives the value, by recursion on the structure of the data. -/

mutual
theorem store_docOf : ∀ (v : Value) (t : GoType), hasType v t = true → v.valid = true →
    store t (docOf v) (zero t) = (v, false)
  | .null, t, ht, _ => by
    cases t with
    | slice e => simp [docOf, store]
    | map e => simp [docOf, store]
    | bool => simp [hasType] at ht
    | int64 => simp [hasType] at ht
    | string => simp [hasType] at ht
  | .bool b, t, ht, _ => by
    cases t with
    | bool => simp [docOf, store]
    | int64 => simp [hasType] at ht
    | string => simp [hasType] at ht
    | slice e => simp [hasType] at ht
    | map e => simp [hasType] at ht
  | .int n, t, ht, hv => by
    simp only [Value.valid, decide_eq_true_eq] at hv
    cases t with
    | int64 =>
      simp only [docOf, store]
      rw [if_pos hv]
    | bool => simp [hasType] at ht
    | string => simp [hasType] at ht
    | slice e => simp [hasType] at ht
    | map e => simp [hasType] at ht
  | .str s, t, ht, _ => by
    cases t with
    | string => simp [docOf, store]
    | bool => simp [hasType] at ht
    | int64 => simp [hasType] at ht
    | slice e => simp [hasType] at ht
    | map e => simp [hasType] at ht
  | .chan, t, ht, _ => by
    simp [hasType] at ht
  | .arr xs, t, ht, hv => by
    have ih := storeElems_docsOf xs
    cases t with
    | slice e =>
      have h1 : elemsHaveType xs e = true := by simpa [hasType] using ht
      have h2 : xs.valid = true := by simpa [Value.valid] using hv
      simp [docOf, store, zero, elemsOf, ih e h1 h2]
    | bool => simp [hasType] at ht
    | int64 => simp [hasType] at ht
    | string => simp [hasType] at ht
    | map e => simp [hasType] at ht
  | .obj fs, t, ht, hv => by
    have ih := storeMembers_membersOf fs
    cases t with
    | map e =>
      have h1 : fieldsHaveType fs e = true ∧ sortedKeys fs = true := by
        simpa [hasType] using ht
      have h2 : fs.valid = true := by simpa [Value.valid] using hv
      simp [docOf, store, zero, fieldsOf,
        ih e Fields.nil h1.1 h2 h1.2 (keysAbove_nil fs), Fields.append]
    | bool => simp [hasType] at ht
    | int64 => simp [hasType] at ht
    | string => simp [hasType] at ht
    | slice e => simp [hasType] at ht
theorem storeElems_docsOf : ∀ (xs : Elems) (t : GoType), elemsHaveType xs t = true →
    xs.valid = true → storeElems t (docsOf xs) Elems.nil = (xs, false)
  | .nil, _, _, _ => rfl
  | .cons v rest, t, ht, hv => by
    have h1 : hasType v t = true ∧ elemsHaveType rest t = true := by
      simpa [elemsHaveType] using ht
    have h2 : v.valid = true ∧ rest.valid = true := by
      simpa [Elems.valid] using hv
    simp [docsOf, storeElems, store_docOf v t h1.1 h2.1, storeElems_docsOf rest t h1.2 h2.2]
theorem storeMembers_membersOf : ∀ (fs : Fields) (t : GoType) (acc : Fields),
    fieldsHaveType fs t = true → fs.valid = true → sortedKeys fs = true →
      keysAbove acc fs = true →
        storeMembers t (membersOf fs) acc = (Fields.append acc fs, false)
  | .nil, _, acc, _, _, _, _ => by
    have e : ∀ a : Fields, Fields.append a Fields.nil = a := by
      intro a
      exact append_nil a
    simp [membersOf, storeMembers, e]
  | .cons k v rest, t, acc, ht, hv, hs, hk => by
    have h1 : hasType v t = true ∧ fieldsHaveType rest t = true := by
      simpa [fieldsHaveType] using ht
    have h2 : (Valid k = true ∧ v.valid = true) ∧ rest.valid = true := by
      simpa [Fields.valid] using hv
    have h3 : allAbove k rest = true ∧ sortedKeys rest = true := by
      simpa [sortedKeys] using hs
    have h4 : allBelow k acc = true ∧ keysAbove acc rest = true := by
      simpa [keysAbove] using hk
    have hrec := storeMembers_membersOf rest t
      (Fields.append acc (Fields.cons k v Fields.nil)) h1.2 h2.2 h3.2
      (keysAbove_snoc rest acc k v h4.2 h3.1)
    simp [membersOf, storeMembers, store_docOf v t h1.1 h2.1.2,
      insertField_snoc acc k v h4.1, hrec, append_snoc]
end

/-- The round trip of `encoding/json` on the fragment: the encoding of a value
of type `t`, whose strings are valid UTF-8, whose integers fit `int64` and
whose nesting stays within the limit of the decoder, is decoded into a fresh
variable of type `t` as the value itself. -/
theorem Unmarshal_Marshal (t : GoType) (v : Value) (b : List Nat)
    (he : Marshal v = .ok b) (ht : hasType v t = true) (hv : v.valid = true)
    (hd : v.depth ≤ maxNestingDepth) :
    Unmarshal t b (zero t) = (none, v) := by
  simp [Unmarshal, parseDocument_Marshal v b he hv hd, store_docOf v t ht hv]

/-! ## Nesting beyond the limit of the decoder -/

theorem encodeValue_nest (n : Nat) :
    encodeValue (nest n) = some (List.replicate (n + 1) 91 ++ List.replicate (n + 1) 93) := by
  induction n with
  | zero => rfl
  | succ n ih =>
    have e1 : List.replicate (n + 1 + 1) 93 = List.replicate (n + 1) 93 ++ [93] :=
      List.replicate_succ' _ _
    have e2 : List.replicate (n + 1 + 1) 91 = 91 :: List.replicate (n + 1) 91 :=
      List.replicate_succ _ _
    simp only [nest, encodeValue, encodeElems, ih]
    rw [e1, e2]
    simp

/-- The scanner rejects an input that opens more arrays than its depth allows. -/
theorem parseValue_too_deep (d : Nat) (x : List Nat) :
    parseValue d (List.replicate (d + 1) 91 ++ x) = none := by
  induction d generalizing x with
  | zero => simp [parseValue, skipWS, isSpace]
  | succ d ih =>
    have e : List.replicate (d + 1 + 1) 91 ++ x = 91 :: (List.replicate (d + 1) 91 ++ x) := by
      simp [List.replicate_succ]
    have e2 : List.replicate (d + 1) 91 ++ x = 91 :: (List.replicate d 91 ++ x) := by
      simp [List.replicate_succ]
    have ih1 := ih x
    rw [e]
    rw [e2] at ih1 ⊢
    generalize List.replicate d 91 ++ x = z at ih1 ⊢
    simp [parseValue, skipWS, isSpace, parseElemsLoop, ih1]

theorem hasType_nest (n : Nat) : hasType (nest n) (nestType n) = true := by
  induction n with
  | zero => rfl
  | succ n ih => simp [nest, nestType, hasType, elemsHaveType, ih]

theorem valid_nest (n : Nat) : (nest n).valid = true := by
  induction n with
  | zero => rfl
  | succ n ih => simp [nest, Value.valid, Elems.valid, ih]

theorem Marshal_of_encode (v : Value) (b : List Nat) (h : encodeValue v = some b) :
    Marshal v = .ok b := by
  unfold Marshal
  rw [h]

theorem Unmarshal_of_parse_none (t : GoType) (data : List Nat) (target : Value)
    (h : parseValue maxNestingDepth data = none) :
    Unmarshal t data target = (some jsonError, target) := by
  unfold Unmarshal parseDocument
  rw [h]

/-! ## Further facts used by the claims -/

theorem performed_self (w : ResponseWriter) : performed w w = [] := by
  simp [performed]

theorem Marshal_cases (v : Value) :
    (∃ payload, Marshal v = .ok payload) ∨ (∃ e, Marshal v = .error e) := by
  unfold Marshal
  cases encodeValue v with
  | none => exact Or.inr ⟨_, rfl⟩
  | some b => exact Or.inl ⟨b, rfl⟩

theorem fresh_observed (w : ResponseWriter) (statusCode : Int) (payload : List Nat)
    (h : w.ops = sendOps statusCode payload) :
    w.body = payload ∧ w.header "Content-Type" = some "application/json"
      ∧ w.status = some statusCode := by
  simp [h, sendOps, ResponseWriter.body, bodyOf, ResponseWriter.header, headerOps,
    ResponseWriter.status, statusOf]

/-- The body of a message response is the message between quotes exactly when
the string literal of the message is. -/
theorem envelope_literal_iff (message : List Nat) :
    bytes "\x7b\"message\":" ++ appendString message ++ bytes "\x7d"
        = bytes "\x7b\"message\":\"" ++ message ++ bytes "\"\x7d"
      ↔ appendString message = 34 :: message ++ [34] := by
  have e : bytes "\x7b\"message\":\"" ++ message ++ bytes "\"\x7d"
      = bytes "\x7b\"message\":" ++ (34 :: message ++ [34]) ++ bytes "\x7d" := by
    simp [bytes]
  rw [e, List.append_left_inj, List.append_right_inj]

theorem copyLimited_seven_spaces (k j : Nat) :
    copyLimited ⟨55 :: List.replicate (k + 1 + j) 32, none⟩ (k + 1)
      = (55 :: List.replicate k 32, none) := by
  rw [copyLimited_beyond _ _ (by simp; omega)]
  show (List.take (k + 1) (55 :: List.replicate (k + 1 + j) 32), none) = _
  rw [take_cons_replicate]

theorem length_seven_spaces (n : Nat) : (55 :: List.replicate n 32).length = n + 1 := by
  simp

theorem DecodeData_too_large {τ : Type} (u : List Nat → τ → Option GoError × τ) (data : τ)
    (r : Request) (h : r.ContentLength > 1000000) :
    DecodeData u data r
      = { value := none, err := some GoError.ErrorRequestBodyTooLarge, target := data,
          events := [] } := by
  have h1 : r.ContentLength > (maxPostSize : Int) := by
    simp [maxPostSize]
    exact h
  unfold DecodeData
  rw [if_pos h1]

theorem DecodeData_read_error {τ : Type} (u : List Nat → τ → Option GoError × τ) (data : τ)
    (r : Request) (fullPost : List Nat) (e : GoError)
    (h1 : r.ContentLength ≤ 1000000) (h2 : copyLimited r.Body maxPostSize = (fullPost, some e)) :
    DecodeData u data r
      = { value := none, err := some (GoError.New ("Could not read body " ++ e.Error)),
          target := data, events := [DecodeEvent.read fullPost.length] } := by
  have h1 : ¬ r.ContentLength > (maxPostSize : Int) := by
    simp [maxPostSize]
    exact h1
  unfold DecodeData
  rw [if_neg h1, h2]

theorem copyLimited_cases (body : Body) (n : Nat) :
    (∃ fullPost, copyLimited body n = (fullPost, none))
      ∨ (∃ fullPost e, copyLimited body n = (fullPost, some e)) := by
  rcases h : copyLimited body n with ⟨fullPost, _ | e⟩
  · exact Or.inl ⟨fullPost, rfl⟩
  · exact Or.inr ⟨fullPost, e, rfl⟩

theorem copyLimited_fails (body : Body) (n : Nat) (e : GoError)
    (h : body.data.length < n) (he : body.err = some e) :
    copyLimited body n = (body.data, some e) := by
  simp [copyLimited, h, he]

theorem message_read_ne_parse (a b : String) : "Could not read body " ++ a ≠ "Bad request " ++ b := by
  intro h
  have h1 := congrArg (fun s => s.data.head?) h
  simp [String.data_append] at h1

theorem message_read_ne_large (a : String) : "Could not read body " ++ a ≠ "Request body too large" := by
  intro h
  have h1 := congrArg (fun s => s.data.head?) h
  simp [String.data_append] at h1

theorem message_parse_ne_large (a : String) : "Bad request " ++ a ≠ "Request body too large" := by
  intro h
  have h1 := congrArg (fun s => s.data.head?) h
  simp [String.data_append] at h1

/-! ## The claims -/

/-- C1, as amended.  For every non-empty message and every status code,
`SendError` on a sink whose writes succeed returns no error and the length of
the body, and performs exactly the three calls set header, write status, write
body.  The body is `{"message":` followed by the JSON string literal that
`json.Marshal` writes for the message and `}`, with no space after the colon.
On a sink without earlier calls the client receives that body, the header
`Content-Type: application/json` and the given status code.  The body is
`{"message":"<message>"}`, the message text between the quotes, if and only if
the message is valid UTF-8 and holds no double quote, backslash, `<`, `>`,
`&`, control character below U+0020, U+2028 or U+2029. -/
theorem SendError_writes_envelope (w : ResponseWriter) (message : List Nat) (statusCode : Int)
    (hm : message ≠ []) (hw : w.writeErr = none) :
    (SendError w message statusCode).2.1 = none
      ∧ (SendError w message statusCode).1
          = ((bytes "\x7b\"message\":" ++ appendString message ++ bytes "\x7d").length : Int)
      ∧ performed w (SendError w message statusCode).2.2
          = sendOps statusCode (bytes "\x7b\"message\":" ++ appendString message ++ bytes "\x7d")
      ∧ (w.ops = [] →
          (SendError w message statusCode).2.2.body
              = bytes "\x7b\"message\":" ++ appendString message ++ bytes "\x7d"
            ∧ (SendError w message statusCode).2.2.header "Content-Type" = some "application/json"
            ∧ (SendError w message statusCode).2.2.status = some statusCode)
      ∧ (bytes "\x7b\"message\":" ++ appendString message ++ bytes "\x7d"
            = bytes "\x7b\"message\":\"" ++ message ++ bytes "\"\x7d"
          ↔ unescaped message = true) := by
  rw [SendError_ok w message statusCode hm hw]
  refine ⟨rfl, rfl, performed_append _ _ _ rfl, ?_, ?_⟩
  · intro h0
    exact fresh_observed _ statusCode _ (by simp [h0])
  · rw [envelope_literal_iff, appendString_eq_iff]

theorem SendError_writes_envelope_witness :
    (bytes "hi" ≠ [] ∧ (ResponseWriter.fresh none).writeErr = none)
      ∧ (SendError (ResponseWriter.fresh none) (bytes "hi") 404).2.2.body
          = bytes "\x7b\"message\":" ++ appendString (bytes "hi") ++ bytes "\x7d"
      ∧ bytes "\x7b\"message\":" ++ appendString (bytes "hi") ++ bytes "\x7d"
          = bytes "\x7b\"message\":\"" ++ bytes "hi" ++ bytes "\"\x7d"
      ∧ bytes "\x7b\"message\":" ++ appendString [0xC3, 0xA9] ++ bytes "\x7d"
          = bytes "\x7b\"message\":\"" ++ [0xC3, 0xA9] ++ bytes "\"\x7d"
      ∧ bytes "\x7b\"message\":" ++ appendString [0xE2, 0x80, 0xA8] ++ bytes "\x7d"
          ≠ bytes "\x7b\"message\":\"" ++ [0xE2, 0x80, 0xA8] ++ bytes "\"\x7d" :=
  ⟨⟨by decide, rfl⟩,
    ((SendError_writes_envelope (ResponseWriter.fresh none) (bytes "hi") 404
      (by decide) rfl).2.2.2.1 rfl).1,
    (SendError_writes_envelope (ResponseWriter.fresh none) (bytes "hi") 404
      (by decide) rfl).2.2.2.2.2 (by decide),
    (SendError_writes_envelope (ResponseWriter.fresh none) [0xC3, 0xA9] 404
      (by decide) rfl).2.2.2.2.2 (by decide),
    fun h => absurd ((SendError_writes_envelope (ResponseWriter.fresh none) [0xE2, 0x80, 0xA8]
      404 (by decide) rfl).2.2.2.2.1 h) (by decide)⟩

/-- C1, as stated, fails.  For the message `a"b` the body is
`{"message":"a\"b"}`: the quote is escaped and no space follows the colon, so
the body differs from `{"message": "a"b"}`; for the message `hi` the body
`{"message":"hi"}` differs from `{"message": "hi"}`. -/
theorem SendError_body_counterexample :
    (SendError (ResponseWriter.fresh none) (bytes "a\"b") 400).2.2.body
        = bytes "\x7b\"message\":\"a\\\"b\"\x7d"
      ∧ (SendError (ResponseWriter.fresh none) (bytes "a\"b") 400).2.2.body
        ≠ bytes "\x7b\"message\": \"" ++ bytes "a\"b" ++ bytes "\"\x7d"
      ∧ (SendError (ResponseWriter.fresh none) (bytes "a\"b") 400).2.2.body
        ≠ bytes "\x7b\"message\":\"" ++ bytes "a\"b" ++ bytes "\"\x7d"
      ∧ (SendError (ResponseWriter.fresh none) (bytes "hi") 400).2.2.body
        ≠ bytes "\x7b\"message\": \"" ++ bytes "hi" ++ bytes "\"\x7d" := by
  decide

/-- C2.  For every sink and every status code, `SendError` with the empty
message returns the byte count 0 and an error, and makes no call on the sink:
the sink is as it was before, so no header is set, no status is written and no
body bytes are written. -/
theorem SendError_empty_message (w : ResponseWriter) (statusCode : Int) :
    (SendError w [] statusCode).1 = 0
      ∧ (SendError w [] statusCode).2.1
          = some (GoError.New "message must not be an empty string")
      ∧ (SendError w [] statusCode).2.2 = w
      ∧ performed w (SendError w [] statusCode).2.2 = [] := by
  simp [SendError, performed]

/-- C5.  For every call of `SendError`, `SendSuccess` or `SendData`, the calls
made on the sink are either none, exactly when the empty-message check or the
JSON encoding fails, or exactly: set `Content-Type` to `application/json`,
write the status code, write the encoded payload, in this order and once each.
This holds for every sink, also for one whose `Write` fails. -/
theorem send_ops_in_order (w : ResponseWriter) (message : List Nat) (data : Value)
    (statusCode : Int) :
    ((performed w (SendError w message statusCode).2.2 = []
          ∧ (message = [] ∨ ∃ e, Marshal (messageEnvelope message) = .error e))
        ∨ (∃ payload, Marshal (messageEnvelope message) = .ok payload ∧ message ≠ []
          ∧ performed w (SendError w message statusCode).2.2 = sendOps statusCode payload))
      ∧ ((performed w (SendSuccess w message).2.2 = []
          ∧ ∃ e, Marshal (messageEnvelope message) = .error e)
        ∨ (∃ payload, Marshal (messageEnvelope message) = .ok payload
          ∧ performed w (SendSuccess w message).2.2 = sendOps 200 payload))
      ∧ ((performed w (SendData w data statusCode).2.2 = []
          ∧ ∃ e, Marshal data = .error e)
        ∨ (∃ payload, Marshal data = .ok payload
          ∧ performed w (SendData w data statusCode).2.2 = sendOps statusCode payload)) := by
  refine ⟨?_, ?_, ?_⟩
  · by_cases hm : message = []
    · left
      subst hm
      exact ⟨by simp [SendError, performed], Or.inl rfl⟩
    · right
      exact ⟨_, Marshal_messageEnvelope message, hm,
        performed_append _ _ _ (SendError_ops w message statusCode hm)⟩
  · right
    exact ⟨_, Marshal_messageEnvelope message,
      performed_append _ _ _ (SendSuccess_ops w message)⟩
  · rcases Marshal_cases data with ⟨payload, hp⟩ | ⟨e, he⟩
    · right
      exact ⟨payload, hp, performed_append _ _ _ (SendData_ops_ok w data statusCode payload hp)⟩
    · left
      refine ⟨?_, e, he⟩
      rw [SendData_error w data statusCode e he]
      exact performed_self w

/-- C7.  For every message, the empty one included, `SendSuccess` makes the
three calls with the status code 200 and the message envelope as body,
whatever the message and whatever the sink; on a sink whose writes succeed it
returns no error and the length of the body; on a sink without earlier calls
the client receives status 200, `Content-Type: application/json` and the
envelope. -/
theorem SendSuccess_always_200 (w : ResponseWriter) (message : List Nat) :
    Marshal (messageEnvelope message)
        = .ok (bytes "\x7b\"message\":" ++ appendString message ++ bytes "\x7d")
      ∧ performed w (SendSuccess w message).2.2
          = sendOps 200 (bytes "\x7b\"message\":" ++ appendString message ++ bytes "\x7d")
      ∧ (w.writeErr = none →
          (SendSuccess w message).2.1 = none
            ∧ (SendSuccess w message).1
              = ((bytes "\x7b\"message\":" ++ appendString message ++ bytes "\x7d").length : Int))
      ∧ (w.ops = [] →
          (SendSuccess w message).2.2.status = some 200
            ∧ (SendSuccess w message).2.2.header "Content-Type" = some "application/json"
            ∧ (SendSuccess w message).2.2.body
              = bytes "\x7b\"message\":" ++ appendString message ++ bytes "\x7d") := by
  refine ⟨Marshal_messageEnvelope message, performed_append _ _ _ (SendSuccess_ops w message),
    ?_, ?_⟩
  · intro hw
    rw [SendSuccess_ok w message hw]
    exact ⟨rfl, rfl⟩
  · intro h0
    have h := fresh_observed (SendSuccess w message).2.2 200 _
      (by rw [SendSuccess_ops w message, h0]; rfl)
    exact ⟨h.2.2, h.2.1, h.1⟩

theorem SendSuccess_always_200_witness :
    (ResponseWriter.fresh none).writeErr = none ∧ (ResponseWriter.fresh none).ops = []
      ∧ (SendSuccess (ResponseWriter.fresh none) []).2.1 = none
      ∧ (SendSuccess (ResponseWriter.fresh none) []).2.2.status = some 200
      ∧ (SendSuccess (ResponseWriter.fresh none) []).2.2.body
          = bytes "\x7b\"message\":" ++ appendString [] ++ bytes "\x7d" :=
  ⟨rfl, rfl, ((SendSuccess_always_200 (ResponseWriter.fresh none) []).2.2.1 rfl).1,
    ((SendSuccess_always_200 (ResponseWriter.fresh none) []).2.2.2 rfl).1,
    ((SendSuccess_always_200 (ResponseWriter.fresh none) []).2.2.2 rfl).2.2⟩

/-- C3.  For every request whose declared content length is greater than
1,000,000, `DecodeData` returns a nil value and `ErrorRequestBodyTooLarge`,
reads nothing from the body stream, does not call the JSON decoder and leaves
the target of the caller as it was.  With a declared length of exactly
1,000,000 the call goes on to read the body, and its error, if any, is not
`ErrorRequestBodyTooLarge`.  This holds for every target and every behaviour
of the decoder. -/
theorem DecodeData_declared_too_large {τ : Type} (u : List Nat → τ → Option GoError × τ)
    (data : τ) (r : Request) :
    (r.ContentLength > 1000000 →
        (DecodeData u data r).value = none
          ∧ (DecodeData u data r).err = some GoError.ErrorRequestBodyTooLarge
          ∧ (DecodeData u data r).events = []
          ∧ (DecodeData u data r).target = data)
      ∧ (r.ContentLength = 1000000 →
        (∃ n rest, (DecodeData u data r).events = DecodeEvent.read n :: rest)
          ∧ (DecodeData u data r).err ≠ some GoError.ErrorRequestBodyTooLarge) := by
  constructor
  · intro h
    rw [DecodeData_too_large u data r h]
    exact ⟨rfl, rfl, rfl, rfl⟩
  · intro h
    have h1 : r.ContentLength ≤ 1000000 := by omega
    rcases copyLimited_cases r.Body maxPostSize with ⟨fullPost, hc⟩ | ⟨fullPost, e, hc⟩
    · have hr := DecodeData_read u data r fullPost h1 hc
      refine ⟨⟨_, _, hr.1⟩, ?_⟩
      rcases hu : (u fullPost data).1 with _ | e
      · rw [(hr.2.2.1 hu).1]
        simp
      · rw [(hr.2.2.2 e hu).1]
        simp
    · rw [DecodeData_read_error u data r fullPost e h1 hc]
      exact ⟨⟨_, _, rfl⟩, by simp⟩

theorem DecodeData_declared_too_large_witness :
    ((1000001 : Int) > 1000000 ∧ (1000000 : Int) = 1000000)
      ∧ (DecodeData (Unmarshal (GoType.map GoType.int64)) Value.null
            ⟨1000001, ⟨bytes "\x7b\"id\":7\x7d", none⟩⟩).err
          = some GoError.ErrorRequestBodyTooLarge
      ∧ (DecodeData (Unmarshal (GoType.map GoType.int64)) Value.null
            ⟨1000001, ⟨bytes "\x7b\"id\":7\x7d", none⟩⟩).events = []
      ∧ (DecodeData (Unmarshal (GoType.map GoType.int64)) Value.null
            ⟨1000000, ⟨bytes "\x7b\"id\":7\x7d", none⟩⟩).err
          ≠ some GoError.ErrorRequestBodyTooLarge :=
  ⟨⟨by decide, rfl⟩,
    ((DecodeData_declared_too_large (Unmarshal (GoType.map GoType.int64)) Value.null
      ⟨1000001, ⟨bytes "\x7b\"id\":7\x7d", none⟩⟩).1 (by decide)).2.1,
    ((DecodeData_declared_too_large (Unmarshal (GoType.map GoType.int64)) Value.null
      ⟨1000001, ⟨bytes "\x7b\"id\":7\x7d", none⟩⟩).1 (by decide)).2.2.1,
    ((DecodeData_declared_too_large (Unmarshal (GoType.map GoType.int64)) Value.null
      ⟨1000000, ⟨bytes "\x7b\"id\":7\x7d", none⟩⟩).2 rfl).2⟩

/-- C4.  For every request whose declared content length does not exceed
1,000,000, whose body has at most 1,000,000 bytes (exactly 1,000,000
included), is read without error and is accepted by the JSON decoder for the
target, `DecodeData` returns no error, leaves in the target what
`json.Unmarshal` of the same bytes into the target leaves there, and returns
that target.  The decoder is called once, on exactly the bytes of the body.
This holds for every target and every behaviour of the decoder. -/
theorem DecodeData_refines_Unmarshal {τ : Type} (u : List Nat → τ → Option GoError × τ)
    (data : τ) (r : Request)
    (h1 : r.ContentLength ≤ 1000000) (h2 : r.Body.data.length ≤ 1000000)
    (h3 : r.Body.err = none) (h4 : (u r.Body.data data).1 = none) :
    (DecodeData u data r).err = none
      ∧ (DecodeData u data r).target = (u r.Body.data data).2
      ∧ (DecodeData u data r).value = some (DecodeData u data r).target
      ∧ (DecodeData u data r).events
          = [DecodeEvent.read r.Body.data.length, DecodeEvent.unmarshal r.Body.data] := by
  have hc := copyLimited_within r.Body maxPostSize h2 h3
  have hr := DecodeData_read u data r r.Body.data h1 hc
  refine ⟨(hr.2.2.1 h4).1, hr.2.1, ?_, hr.1⟩
  rw [(hr.2.2.1 h4).2, hr.2.1]

theorem DecodeData_refines_Unmarshal_witness :
    ((1000000 : Int) ≤ 1000000 ∧ (55 :: List.replicate 999999 32).length ≤ 1000000)
      ∧ (DecodeData (Unmarshal GoType.int64) (Value.int 0)
            ⟨1000000, ⟨55 :: List.replicate 999999 32, none⟩⟩).err = none
      ∧ (DecodeData (Unmarshal GoType.int64) (Value.int 0)
            ⟨1000000, ⟨55 :: List.replicate 999999 32, none⟩⟩).target
          = (Unmarshal GoType.int64 (55 :: List.replicate 999999 32) (Value.int 0)).2
      ∧ (Unmarshal GoType.int64 (55 :: List.replicate 999999 32) (Value.int 0)).2
          = Value.int 7 :=
  ⟨⟨by decide, le_of_eq (length_seven_spaces 999999)⟩,
    (DecodeData_refines_Unmarshal (Unmarshal GoType.int64) (Value.int 0)
      ⟨1000000, ⟨55 :: List.replicate 999999 32, none⟩⟩
      (by decide) (le_of_eq (length_seven_spaces 999999)) rfl
      (by rw [Unmarshal_seven_spaces])).1,
    (DecodeData_refines_Unmarshal (Unmarshal GoType.int64) (Value.int 0)
      ⟨1000000, ⟨55 :: List.replicate 999999 32, none⟩⟩
      (by decide) (le_of_eq (length_seven_spaces 999999)) rfl
      (by rw [Unmarshal_seven_spaces])).2.1,
    by rw [Unmarshal_seven_spaces]⟩

/-- C8, as amended.  For every request whose body is accepted by the JSON
decoder for the target and is read without error, and whose declared content
length is larger than the number of bytes of the body but not larger than
1,000,000, `DecodeData` returns no error and the target as
`json.Unmarshal` of the body leaves it.  This holds for every target and every
behaviour of the decoder. -/
theorem DecodeData_short_body {τ : Type} (u : List Nat → τ → Option GoError × τ)
    (data : τ) (r : Request)
    (h1 : (r.Body.data.length : Int) < r.ContentLength) (h2 : r.ContentLength ≤ 1000000)
    (h3 : r.Body.err = none) (h4 : (u r.Body.data data).1 = none) :
    (DecodeData u data r).err = none
      ∧ (DecodeData u data r).target = (u r.Body.data data).2
      ∧ (DecodeData u data r).value = some (u r.Body.data data).2 := by
  have hl : r.Body.data.length ≤ 1000000 := by omega
  have hc := copyLimited_within r.Body maxPostSize hl h3
  have hr := DecodeData_read u data r r.Body.data h2 hc
  exact ⟨(hr.2.2.1 h4).1, hr.2.1, (hr.2.2.1 h4).2⟩

theorem DecodeData_short_body_witness :
    (((bytes "\x7b\"id\":7\x7d").length : Int) < 500 ∧ (500 : Int) ≤ 1000000)
      ∧ (DecodeData (Unmarshal (GoType.map GoType.int64)) Value.null
            ⟨500, ⟨bytes "\x7b\"id\":7\x7d", none⟩⟩).err = none
      ∧ (DecodeData (Unmarshal (GoType.map GoType.int64)) Value.null
            ⟨500, ⟨bytes "\x7b\"id\":7\x7d", none⟩⟩).value
          = some (Unmarshal (GoType.map GoType.int64) (bytes "\x7b\"id\":7\x7d") Value.null).2
      ∧ (Unmarshal (GoType.map GoType.int64) (bytes "\x7b\"id\":7\x7d") Value.null).2
          = Value.obj (Fields.cons (bytes "id") (Value.int 7) Fields.nil) :=
  ⟨⟨by decide, by decide⟩,
    (DecodeData_short_body (Unmarshal (GoType.map GoType.int64)) Value.null
      ⟨500, ⟨bytes "\x7b\"id\":7\x7d", none⟩⟩
      (by decide) (by decide) rfl (by decide)).1,
    (DecodeData_short_body (Unmarshal (GoType.map GoType.int64)) Value.null
      ⟨500, ⟨bytes "\x7b\"id\":7\x7d", none⟩⟩
      (by decide) (by decide) rfl (by decide)).2.2,
    by rfl⟩

/-- C8, as stated, fails.  The body `{"id":7}` has 8 bytes and is accepted by
the JSON decoder for a `map[string]int64`.  With the declared length
1,000,001, which is larger than the number of bytes of the body,
`DecodeData` fails with `ErrorRequestBodyTooLarge` and decodes nothing.  With
the declared length 100 and a stream that breaks off after the 8 bytes, as a
connection does when the client sends less than it declared, `DecodeData`
fails with the read error. -/
theorem DecodeData_short_body_counterexample :
    (Unmarshal (GoType.map GoType.int64) (bytes "\x7b\"id\":7\x7d") Value.null).1 = none
      ∧ ((bytes "\x7b\"id\":7\x7d").length : Int) < 1000001
      ∧ (DecodeData (Unmarshal (GoType.map GoType.int64)) Value.null
            ⟨1000001, ⟨bytes "\x7b\"id\":7\x7d", none⟩⟩).err
          = some GoError.ErrorRequestBodyTooLarge
      ∧ (DecodeData (Unmarshal (GoType.map GoType.int64)) Value.null
            ⟨1000001, ⟨bytes "\x7b\"id\":7\x7d", none⟩⟩).value = none
      ∧ (DecodeData (Unmarshal (GoType.map GoType.int64)) Value.null
            ⟨1000001, ⟨bytes "\x7b\"id\":7\x7d", none⟩⟩).events = []
      ∧ (DecodeData (Unmarshal (GoType.map GoType.int64)) Value.null
            ⟨100, ⟨bytes "\x7b\"id\":7\x7d", some (GoError.New "unexpected EOF")⟩⟩).err
          = some (GoError.New "Could not read body unexpected EOF") := by
  refine ⟨by decide, by decide, ?_, ?_, ?_, ?_⟩
  · rw [DecodeData_too_large _ _ _ (by decide)]
  · rw [DecodeData_too_large _ _ _ (by decide)]
  · rw [DecodeData_too_large _ _ _ (by decide)]
  · rw [DecodeData_read_error _ Value.null _ (bytes "\x7b\"id\":7\x7d")
      (GoError.New "unexpected EOF") (by decide)
      (copyLimited_fails _ _ _ (by decide) rfl)]
    rfl

/-- C9, evaluated at a failing input.  The request declares no length (-1)
and its body is `7` followed by 1,000,000 spaces, 1,000,001 bytes in all; the
target is an `int64` variable.  `DecodeData` reads the first 1,000,000 bytes,
hands them to the JSON decoder and returns the value 7 without an error, where
the claim asks for `ErrorRequestBodyTooLarge` and no call of the decoder. -/
theorem DecodeData_oversized_body_is_decoded :
    (55 :: List.replicate 1000000 32).length = 1000001
      ∧ (DecodeData (Unmarshal GoType.int64) (Value.int 0)
            ⟨-1, ⟨55 :: List.replicate 1000000 32, none⟩⟩).err = none
      ∧ (DecodeData (Unmarshal GoType.int64) (Value.int 0)
            ⟨-1, ⟨55 :: List.replicate 1000000 32, none⟩⟩).value
          = some (Value.int 7)
      ∧ (DecodeData (Unmarshal GoType.int64) (Value.int 0)
            ⟨-1, ⟨55 :: List.replicate 1000000 32, none⟩⟩).events
          = [DecodeEvent.read 1000000,
              DecodeEvent.unmarshal (55 :: List.replicate 999999 32)] := by
  have hc : copyLimited ⟨55 :: List.replicate 1000000 32, none⟩ maxPostSize
      = (55 :: List.replicate 999999 32, none) := copyLimited_seven_spaces 999999 0
  have hr := DecodeData_read (Unmarshal GoType.int64) (Value.int 0)
    ⟨-1, ⟨55 :: List.replicate 1000000 32, none⟩⟩ _ (by decide) hc
  have hu := Unmarshal_seven_spaces 999999 (Value.int 0)
  refine ⟨length_seven_spaces 1000000, (hr.2.2.1 (by rw [hu])).1, ?_, ?_⟩
  · rw [(hr.2.2.1 (by rw [hu])).2, hu]
  · rw [hr.1, length_seven_spaces 999999]

/-- C10.  The three failures of `DecodeData` are told apart by the caller,
whatever the underlying cause.  A declared length above 1,000,000 gives
`ErrorRequestBodyTooLarge`.  A stream that fails before the cap is reached
gives an error whose message is `Could not read body ` followed by the cause.
A body within the cap that the JSON decoder rejects gives an error whose
message is `Bad request ` followed by the cause.  For all causes the three
messages differ pairwise, and so do the error values.  This holds for every
target and every behaviour of the decoder. -/
theorem DecodeData_failures_distinct {τ : Type} (u : List Nat → τ → Option GoError × τ)
    (data : τ) (r : Request) (e1 e2 : GoError) :
    (r.ContentLength > 1000000 →
        (DecodeData u data r).err = some GoError.ErrorRequestBodyTooLarge)
      ∧ (r.ContentLength ≤ 1000000 → r.Body.data.length < 1000000 → r.Body.err = some e1 →
        (DecodeData u data r).err = some (GoError.New ("Could not read body " ++ e1.Error)))
      ∧ (r.ContentLength ≤ 1000000 → r.Body.data.length ≤ 1000000 → r.Body.err = none →
        (u r.Body.data data).1 = some e2 →
        (DecodeData u data r).err = some (GoError.New ("Bad request " ++ e2.Error)))
      ∧ (GoError.New ("Bad request " ++ e2.Error)).Error
          ≠ GoError.ErrorRequestBodyTooLarge.Error
      ∧ (GoError.New ("Bad request " ++ e2.Error)).Error
          ≠ (GoError.New ("Could not read body " ++ e1.Error)).Error
      ∧ (GoError.New ("Could not read body " ++ e1.Error)).Error
          ≠ GoError.ErrorRequestBodyTooLarge.Error
      ∧ GoError.New ("Bad request " ++ e2.Error) ≠ GoError.ErrorRequestBodyTooLarge
      ∧ GoError.New ("Bad request " ++ e2.Error)
          ≠ GoError.New ("Could not read body " ++ e1.Error)
      ∧ GoError.New ("Could not read body " ++ e1.Error)
          ≠ GoError.ErrorRequestBodyTooLarge := by
  refine ⟨?_, ?_, ?_, ?_, ?_, ?_, ?_, ?_, ?_⟩
  · intro h
    rw [DecodeData_too_large u data r h]
  · intro h1 h2 h3
    rw [DecodeData_read_error u data r r.Body.data e1 h1 (copyLimited_fails _ _ _ h2 h3)]
  · intro h1 h2 h3 h4
    exact ((DecodeData_read u data r r.Body.data h1
      (copyLimited_within r.Body maxPostSize h2 h3)).2.2.2 e2 h4).1
  · exact message_parse_ne_large _
  · exact fun h => message_read_ne_parse _ _ h.symm
  · exact message_read_ne_large _
  · intro h
    cases h
  · intro h
    exact message_read_ne_parse _ _ (GoError.New.inj h).symm
  · intro h
    cases h

theorem DecodeData_failures_distinct_witness :
    ((2000000 : Int) > 1000000
        ∧ (Unmarshal (GoType.map GoType.int64) (bytes "\x7b\"id\":7") Value.null).1
            = some jsonError
        ∧ (Unmarshal (GoType.map GoType.int64) (bytes "hello") Value.null).1 = some jsonError)
      ∧ (DecodeData (Unmarshal (GoType.map GoType.int64)) Value.null
            ⟨2000000, ⟨bytes "\x7b\"id\":7\x7d", none⟩⟩).err
          = some GoError.ErrorRequestBodyTooLarge
      ∧ (DecodeData (Unmarshal (GoType.map GoType.int64)) Value.null
            ⟨8, ⟨bytes "\x7b\"id", some (GoError.New "connection reset")⟩⟩).err
          = some (GoError.New ("Could not read body " ++ (GoError.New "connection reset").Error))
      ∧ (DecodeData (Unmarshal (GoType.map GoType.int64)) Value.null
            ⟨7, ⟨bytes "\x7b\"id\":7", none⟩⟩).err
          = some (GoError.New ("Bad request " ++ jsonError.Error))
      ∧ (DecodeData (Unmarshal (GoType.map GoType.int64)) Value.null
            ⟨5, ⟨bytes "hello", none⟩⟩).err
          = some (GoError.New ("Bad request " ++ jsonError.Error)) :=
  ⟨⟨by decide, by decide, by decide⟩,
    (DecodeData_failures_distinct (Unmarshal (GoType.map GoType.int64)) Value.null
      ⟨2000000, ⟨bytes "\x7b\"id\":7\x7d", none⟩⟩ jsonError jsonError).1 (by decide),
    (DecodeData_failures_distinct (Unmarshal (GoType.map GoType.int64)) Value.null
      ⟨8, ⟨bytes "\x7b\"id", some (GoError.New "connection reset")⟩⟩
      (GoError.New "connection reset") jsonError).2.1 (by decide) (by decide) rfl,
    (DecodeData_failures_distinct (Unmarshal (GoType.map GoType.int64)) Value.null
      ⟨7, ⟨bytes "\x7b\"id\":7", none⟩⟩ jsonError jsonError).2.2.1
      (by decide) (by decide) rfl (by decide),
    (DecodeData_failures_distinct (Unmarshal (GoType.map GoType.int64)) Value.null
      ⟨5, ⟨bytes "hello", none⟩⟩ jsonError jsonError).2.2.1
      (by decide) (by decide) rfl (by decide)⟩

/-- C6, as amended.  For every value and every status code, when `SendData`
succeeds the payload it wrote is the JSON encoding of the value, `json.Marshal`
of it, with no envelope, written after the header and the given status code.
When the value is a Go value of a type built from `bool`, `int64`, `string`,
slices and string-keyed maps, every string and key of it is valid UTF-8 and it
is nested at most 10,000 levels deep, `json.Unmarshal` of the payload into a
fresh variable of that type succeeds and leaves there a value equal to the
input. -/
theorem SendData_roundtrip (w : ResponseWriter) (data : Value) (statusCode : Int)
    (t : GoType) (hs : (SendData w data statusCode).2.1 = none) :
    ∃ payload, Marshal data = .ok payload
      ∧ performed w (SendData w data statusCode).2.2 = sendOps statusCode payload
      ∧ (w.ops = [] → (SendData w data statusCode).2.2.body = payload
          ∧ (SendData w data statusCode).2.2.status = some statusCode)
      ∧ (hasType data t = true → data.valid = true → data.depth ≤ 10000 →
          Unmarshal t payload (zero t) = (none, data)) := by
  rcases Marshal_cases data with ⟨payload, hp⟩ | ⟨e, he⟩
  · have hops := SendData_ops_ok w data statusCode payload hp
    refine ⟨payload, hp, performed_append _ _ _ hops, ?_, ?_⟩
    · intro h0
      have h := fresh_observed (SendData w data statusCode).2.2 statusCode payload
        (by rw [hops, h0]; rfl)
      exact ⟨h.1, h.2.2⟩
    · intro ht hv hd
      exact Unmarshal_Marshal t data payload hp ht hv hd
  · rw [SendData_error w data statusCode e he] at hs
    simp at hs

theorem SendData_roundtrip_witness :
    (SendData (ResponseWriter.fresh none)
        (Value.obj (Fields.cons (bytes "id") (Value.int 7) Fields.nil)) 201).2.1 = none
      ∧ (SendData (ResponseWriter.fresh none)
        (Value.obj (Fields.cons (bytes "id") (Value.int 7) Fields.nil)) 201).2.2.body
          = bytes "\x7b\"id\":7\x7d"
      ∧ (SendData (ResponseWriter.fresh none)
        (Value.obj (Fields.cons (bytes "id") (Value.int 7) Fields.nil)) 201).2.2.status
          = some 201
      ∧ ∃ payload,
        Marshal (Value.obj (Fields.cons (bytes "id") (Value.int 7) Fields.nil)) = .ok payload
          ∧ Unmarshal (GoType.map GoType.int64) payload (zero (GoType.map GoType.int64))
            = (none, Value.obj (Fields.cons (bytes "id") (Value.int 7) Fields.nil)) :=
  ⟨by decide, by decide, by decide,
    (SendData_roundtrip (ResponseWriter.fresh none)
      (Value.obj (Fields.cons (bytes "id") (Value.int 7) Fields.nil)) 201
      (GoType.map GoType.int64) (by decide)).elim
      (fun payload h => ⟨payload, h.1, h.2.2.2 (by decide) (by decide) (by decide)⟩)⟩

/-- C6, as stated, fails.  The Go string made of the single byte 0xFF is
encoded as `"\ufffd"`, and decoding that text into a `string` variable leaves
there the three bytes of U+FFFD, not the input.  The slice nested 10,001
levels deep is encoded, and the decoder rejects the encoding because it is
nested deeper than 10,000 levels. -/
theorem SendData_roundtrip_counterexample :
    (hasType (Value.str [0xFF]) GoType.string = true
        ∧ (SendData (ResponseWriter.fresh none) (Value.str [0xFF]) 200).2.1 = none
        ∧ (SendData (ResponseWriter.fresh none) (Value.str [0xFF]) 200).2.2.body
            = bytes "\"\\ufffd\""
        ∧ Unmarshal GoType.string (bytes "\"\\ufffd\"") (zero GoType.string)
            = (none, Value.str [0xEF, 0xBF, 0xBD])
        ∧ Value.str [0xEF, 0xBF, 0xBD] ≠ Value.str [0xFF])
      ∧ (hasType (nest 10000) (nestType 10000) = true
        ∧ (nest 10000).valid = true
        ∧ (SendData (ResponseWriter.fresh none) (nest 10000) 200).2.1 = none
        ∧ (SendData (ResponseWriter.fresh none) (nest 10000) 200).2.2.body
            = List.replicate 10001 91 ++ List.replicate 10001 93
        ∧ Unmarshal (nestType 10000) (List.replicate 10001 91 ++ List.replicate 10001 93)
              (zero (nestType 10000))
            = (some jsonError, zero (nestType 10000))) := by
  have he : encodeValue (nest 10000)
      = some (List.replicate 10001 91 ++ List.replicate 10001 93) := encodeValue_nest 10000
  have hp : parseValue maxNestingDepth (List.replicate 10001 91 ++ List.replicate 10001 93)
      = none := parseValue_too_deep 10000 _
  have hm : Marshal (nest 10000) = .ok (List.replicate 10001 91 ++ List.replicate 10001 93) :=
    Marshal_of_encode _ _ he
  have hd := SendData_ok (ResponseWriter.fresh none) (nest 10000) 200 _ hm rfl
  refine ⟨⟨by decide, by decide, by decide, by rfl, by simp⟩, hasType_nest 10000,
    valid_nest 10000, ?_, ?_, ?_⟩
  · rw [hd]
  · rw [hd]
    exact (fresh_observed _ 200 _ rfl).1
  · exact Unmarshal_of_parse_none _ _ _ hp

end Httputil
